import Mathlib

/-!
# DoctorDashboard: state-synchronisation core of `script.js`

A shallow embedding of the `DoctorDashboard` class of `src/script.js`.

* The fields of `this` that the core reads or writes become the fields of `State`.
* Every method becomes a function `State → arguments → State`; `handlePatientEvent`, which
  can stop on a `TypeError`, returns an `Outcome` that says so and carries the state left
  behind.
* What the class sends to its collaborators is recorded in two traces kept in the state:
  `emitted` (calls of `this.socket.emit`) and `notifications`
  (calls of `playNotificationSound` and `showToast`).
* The wall clock (`Date.now()`) and the pending `setTimeout` callbacks are explicit
  (`clock`, `timers`); `advance` lets time pass and fires, in order, the timers that fall
  due.
* DOM rendering (`renderMessage`, `createPatientItem`, `updatePatientHeader`, ...) writes no
  field of `this` and is left out; display names are strings, so the rendering helpers
  do not throw.
* Timestamps are integers (milliseconds), the value `Date.now()` produces.
-/

namespace DoctorDashboard

/-! ## Values -/

/-- A conversation id as the code handles it: `null` (the constructor's value of
`currentPatientId`), `undefined` (a field that is absent) or a string. -/
inductive PatientId where
  | null
  | undefined
  | str (s : String)
  deriving DecidableEq, Repr

/-- JavaScript truthiness of an id: only a non-empty string is truthy. -/
def PatientId.truthy : PatientId → Bool
  | .str s => decide (s ≠ "")
  | _ => false

/-- The value of `a || b` on ids. -/
def PatientId.orElse (a b : PatientId) : PatientId :=
  if a.truthy then a else b

/-- The `file` object of a message: `{ name, content, type }`. -/
structure FileAttachment where
  name : String
  content : Option String
  type : String
  deriving DecidableEq, Repr

/-- A chat message as it travels on the `message` event.  `timestamp` and `patientId` may
be absent. -/
structure Message where
  text : String
  role : String
  displayName : String
  timestamp : Option Int
  status : String
  file : Option FileAttachment
  patientId : PatientId
  deriving DecidableEq, Repr

/-- The clinical profile carried by lifecycle events. -/
structure Profile where
  name : String
  age : Option Int
  condition : Option String
  symptoms : List String
  painLocation : String
  painLevel : Int
  duration : String
  temperature : Option Int
  deriving DecidableEq, Repr

/-- A patient record, as stored in `this.patients`. -/
structure Patient where
  id : PatientId
  name : String
  age : Option Int
  condition : Option String
  online : Bool
  typing : Bool
  profile : Option Profile
  deriving DecidableEq, Repr

/-- Payload of the inbound `typing` event. -/
structure TypingData where
  role : String
  isTyping : Bool
  displayName : String
  patientId : PatientId
  deriving DecidableEq, Repr

/-- Payload of the inbound `patientEvent` event. -/
structure PatientEvent where
  type : String
  patientId : PatientId
  profile : Option Profile
  deriving DecidableEq, Repr

/-- One call of `this.socket.emit`. -/
inductive Emission where
  | join (role : String) (patientId : PatientId) (displayName : String)
  | getPatients
  | typing (isTyping : Bool)
  | message (text : String) (file : Option FileAttachment)
  deriving DecidableEq, Repr

/-- One call to the notification collaborator. -/
inductive Notification where
  | sound
  | toast (kind : String) (message : String)
  deriving DecidableEq, Repr

/-- The two callbacks the core hands to `setTimeout`. -/
inductive TimerAction where
  | releaseSendGuard
  | typingStop
  deriving DecidableEq, Repr

/-- A pending `setTimeout` callback. -/
structure Timer where
  id : Nat
  due : Int
  action : TimerAction
  deriving DecidableEq, Repr

/-! ## `Map` -/

/-- A JavaScript `Map` keyed by conversation id, as its list of entries in insertion
order. -/
abbrev JsMap (V : Type) := List (PatientId × V)

/-- The method `Map.prototype.get`; `none` is `undefined`. -/
def JsMap.get {V : Type} : JsMap V → PatientId → Option V
  | [], _ => none
  | (k', v) :: rest, k => if k' = k then some v else JsMap.get rest k

/-- The method `Map.prototype.has`. -/
def JsMap.has {V : Type} (m : JsMap V) (k : PatientId) : Bool :=
  (JsMap.get m k).isSome

/-- The method `Map.prototype.set`: an existing key keeps its place, a new key goes last. -/
def JsMap.set {V : Type} : JsMap V → PatientId → V → JsMap V
  | [], k, v => [(k, v)]
  | (k', v') :: rest, k, v =>
    if k' = k then (k, v) :: rest else (k', v') :: JsMap.set rest k v

/-! ## State -/

/-- The counters of `this.analytics` the core maintains. -/
structure Analytics where
  totalMessages : Nat
  messagesToday : Nat
  activeChats : Nat
  deriving DecidableEq, Repr

/-- The fields of `this` together with the environment the class acts on. -/
structure State where
  /-- Whether `this.socket` is a socket (`true`) or `null` (`false`). -/
  socket : Bool
  currentPatientId : PatientId
  patients : JsMap Patient
  messages : JsMap (List Message)
  analytics : Analytics
  isSending : Bool
  /-- The handle stored in `this.typingTimeout`. -/
  typingTimeout : Option Nat
  /-- Everything passed to `this.socket.emit`, oldest first. -/
  emitted : List Emission
  /-- Every sound and toast requested, oldest first. -/
  notifications : List Notification
  /-- The value of `Date.now()`. -/
  clock : Int
  /-- Callbacks registered with `setTimeout` that have neither fired nor been cleared. -/
  timers : List Timer
  nextTimerId : Nat
  deriving DecidableEq, Repr

/-- The state the constructor builds, at wall-clock time `t0`. -/
def State.initial (t0 : Int) : State where
  socket := false
  currentPatientId := .null
  patients := []
  messages := []
  analytics := ⟨0, 0, 0⟩
  isSending := false
  typingTimeout := none
  emitted := []
  notifications := []
  clock := t0
  timers := []
  nextTimerId := 1

/-- Record `this.socket.emit(...)`. -/
def State.emit (s : State) (e : Emission) : State :=
  { s with emitted := s.emitted ++ [e] }

/-- Record `this.showToast(kind, message)`. -/
def State.showToast (s : State) (kind message : String) : State :=
  { s with notifications := s.notifications ++ [.toast kind message] }

/-- Record `this.playNotificationSound()`. -/
def State.playNotificationSound (s : State) : State :=
  { s with notifications := s.notifications ++ [.sound] }

/-- The built-in `setTimeout(action, delay)`: registers the callback and returns its
handle. -/
def State.setTimeout (s : State) (action : TimerAction) (delay : Nat) : State × Nat :=
  ({ s with timers := s.timers ++ [⟨s.nextTimerId, s.clock + delay, action⟩],
            nextTimerId := s.nextTimerId + 1 }, s.nextTimerId)

/-- The built-in `clearTimeout(handle)`; an `undefined` handle clears nothing. -/
def State.clearTimeout (s : State) (handle : Option Nat) : State :=
  match handle with
  | none => s
  | some h => { s with timers := s.timers.filter (fun t => decide (t.id ≠ h)) }

/-! ## Message store -/

/-- The expression `m.timestamp || 0`. -/
def Message.timestampOrZero (m : Message) : Int :=
  m.timestamp.getD 0

/-- The callback of `existingMessages.some(...)` in `handleMessage`: same text, same role
and timestamps less than 1000 ms apart. -/
def isDuplicateOf (msg existingMsg : Message) : Bool :=
  existingMsg.text == msg.text &&
  existingMsg.role == msg.role &&
  decide ((existingMsg.timestampOrZero - msg.timestampOrZero).natAbs < 1000)

/-- The first statement of `handleMessage`: a message without a conversation id is tagged,
in place, with the current one. -/
def tagMessage (s : State) (msg : Message) : Message :=
  if !msg.patientId.truthy && s.currentPatientId.truthy then
    { msg with patientId := s.currentPatientId }
  else msg

/-- The local `patientId` of `handleMessage`: `msg.patientId || this.currentPatientId`. -/
def targetOf (s : State) (msg : Message) : PatientId :=
  (tagMessage s msg).patientId.orElse s.currentPatientId

/-- Reading a log the way the code does: `this.messages.get(id) || []`. -/
def logOf (s : State) (id : PatientId) : List Message :=
  (JsMap.get s.messages id).getD []

/-- The method `handleMessage(msg)`. -/
def handleMessage (s : State) (msg0 : Message) : State :=
  let msg := tagMessage s msg0
  let patientId := msg.patientId.orElse s.currentPatientId
  let s1 : State :=
    if !JsMap.has s.messages patientId then
      { s with messages := JsMap.set s.messages patientId [] }
    else s
  let existingMessages := (JsMap.get s1.messages patientId).getD []
  let isDuplicate := existingMessages.any (isDuplicateOf msg)
  if isDuplicate then s1
  else
    let s2 : State :=
      { s1 with
        messages := JsMap.set s1.messages patientId (existingMessages ++ [msg]),
        analytics := { s1.analytics with
          totalMessages := s1.analytics.totalMessages + 1,
          messagesToday := s1.analytics.messagesToday + 1 } }
    if msg.role == "patient" then
      (s2.playNotificationSound).showToast "info" ("New message from " ++ msg.displayName)
    else s2

/-- The method `clearChat()`; `confirmed` is the answer of the `confirm` dialog. -/
def clearChat (s : State) (confirmed : Bool) : State :=
  if !s.currentPatientId.truthy then s
  else if confirmed then
    ({ s with messages := JsMap.set s.messages s.currentPatientId [] }).showToast
      "info" "Chat cleared"
  else s

/-- The method `getUnreadCount(patientId)`. -/
def getUnreadCount (s : State) (patientId : PatientId) : Nat :=
  if patientId = s.currentPatientId then 0
  else
    let messages := (JsMap.get s.messages patientId).getD []
    (messages.filter (fun m => m.role == "patient")).length

/-- The method `loadPatientChat(patientId)`: apart from rendering it only moves the
current-conversation pointer. -/
def loadPatientChat (s : State) (patientId : PatientId) : State :=
  { s with currentPatientId := patientId }

/-! ## Roster -/

/-- The body of the `forEach` callback in `updatePatientsList`. -/
def addPatientIfNew (s : State) (patient : Patient) : State :=
  if !JsMap.has s.patients patient.id then
    let s1 : State := { s with patients := JsMap.set s.patients patient.id patient }
    if !JsMap.has s1.messages patient.id then
      { s1 with messages := JsMap.set s1.messages patient.id [] }
    else s1
  else s

/-- The method `updatePatientsList(patients)`. -/
def updatePatientsList (s : State) (patients : List Patient) : State :=
  patients.foldl addPatientIfNew s

/-- The method `updatePatientStatus(patientId, status)`. -/
def updatePatientStatus (s : State) (patientId : PatientId) (status : String) : State :=
  match JsMap.get s.patients patientId with
  | some patient =>
    let updated : Patient :=
      { patient with online := status != "offline", typing := status == "typing" }
    { s with patients := JsMap.set s.patients patientId updated }
  | none => s

/-- How a handler ends: it returns, or an uncaught `TypeError` stops it.  Either way the
state it has built so far stays behind. -/
inductive Outcome where
  | returned (s : State)
  | threw (s : State)
  deriving DecidableEq, Repr

/-- The state a handler leaves behind. -/
def Outcome.state : Outcome → State
  | .returned s => s
  | .threw s => s

/-- The method `handlePatientEvent(event)`.  Reading `event.profile.name` throws when the
event has no profile, and `this.socket.emit` throws when there is no socket. -/
def handlePatientEvent (s : State) (event : PatientEvent) : Outcome :=
  if event.type == "connected" then
    match event.profile with
    | none => .threw s
    | some profile =>
      let s1 := (s.showToast "success"
        ("New patient " ++ profile.name ++ " connected")).playNotificationSound
      if !JsMap.has s1.patients event.patientId then
        let patient : Patient :=
          { id := event.patientId, name := profile.name, age := profile.age,
            condition := profile.condition, online := true, typing := false,
            profile := some profile }
        let s2 : State := { s1 with patients := JsMap.set s1.patients event.patientId patient }
        if s2.socket then .returned (s2.emit .getPatients) else .threw s2
      else .returned s1
  else if event.type == "disconnected" then
    .returned (updatePatientStatus (s.showToast "warning" "Patient disconnected")
      event.patientId "offline")
  else .returned s

/-- The method `handleTypingIndicator(data)`. -/
def handleTypingIndicator (s : State) (data : TypingData) : State :=
  if data.role == "patient" && data.isTyping then
    updatePatientStatus s data.patientId "typing"
  else if data.patientId.truthy then
    updatePatientStatus s data.patientId "online"
  else s

/-- The method `updatePresence(users)`; only the `role` of each user is read. -/
def updatePresence (s : State) (users : List String) : State :=
  { s with analytics := { s.analytics with
      activeChats := (users.filter (fun role => role == "patient")).length } }

/-! ## Send pipeline and typing -/

/-- White space as `String.prototype.trim` understands it (WhiteSpace and
LineTerminator). -/
def isJsWhiteSpace (c : Char) : Bool :=
  let n := c.toNat
  n == 0x09 || n == 0x0A || n == 0x0B || n == 0x0C || n == 0x0D || n == 0x20 ||
  n == 0xA0 || n == 0x1680 || (0x2000 ≤ n && n ≤ 0x200A) || n == 0x2028 || n == 0x2029 ||
  n == 0x202F || n == 0x205F || n == 0x3000 || n == 0xFEFF

/-- The method `String.prototype.trim`. -/
def jsTrim (text : String) : String :=
  String.mk ((text.toList.dropWhile isJsWhiteSpace).reverse.dropWhile isJsWhiteSpace).reverse

/-- The method `sendMessage()`; `inputValue` is the content of the message input. -/
def sendMessage (s : State) (inputValue : String) : State :=
  if s.isSending then s
  else
    let text := jsTrim inputValue
    if text == "" || !s.socket || !s.currentPatientId.truthy then s
    else
      let s1 : State := { s with isSending := true }
      let s2 := s1.emit (.typing false)
      let s3 := s2.emit (.message text none)
      (s3.setTimeout .releaseSendGuard 500).1

/-- The method `handleTyping()`. -/
def handleTyping (s : State) : State :=
  if !s.socket || !s.currentPatientId.truthy then s
  else
    let s1 := s.emit (.typing true)
    let s2 := s1.clearTimeout s1.typingTimeout
    let (s3, handle) := s2.setTimeout .typingStop 1000
    { s3 with typingTimeout := some handle }

/-- A pending callback runs: it leaves the timer queue and its body is executed. -/
def fireTimer (s : State) (id : Nat) : State :=
  match s.timers.find? (fun t => decide (t.id = id)) with
  | none => s
  | some t =>
    let s1 : State := { s with timers := s.timers.filter (fun u => decide (u.id ≠ id)) }
    match t.action with
    | .releaseSendGuard => { s1 with isSending := false }
    | .typingStop => s1.emit (.typing false)

/-- The text of a file message, with the marker exactly as the source file spells it. -/
def fileMessageText (fileName type : String) : String :=
  if type == "image" then "ðŸ“Ž Image: " ++ fileName
  else "ðŸ“Ž File: " ++ fileName

/-- The method `sendFileMessage(fileName, content, type)`. -/
def sendFileMessage (s : State) (fileName : String) (content : Option String)
    (type : String) : State :=
  if !s.socket || !s.currentPatientId.truthy then s
  else
    let msg : Message :=
      { text := fileMessageText fileName type, role := "doctor",
        displayName := "Dr. Dharshini", timestamp := some s.clock, status := "sent",
        file := some { name := fileName, content := content, type := type },
        patientId := .undefined }
    let s1 := s.emit (.message msg.text msg.file)
    handleMessage s1 { msg with patientId := s1.currentPatientId }

/-- The method `connect(patientId)`: creates the socket (the handlers it registers are the
cases of `step`). -/
def connect (s : State) : State :=
  { s with socket := true }

/-- The `connect` callback registered by `connect(patientId)`. -/
def onConnect (s : State) (patientId : PatientId) : State :=
  let s1 := s.emit (.join "doctor" patientId "Dr. Dharshini")
  let s2 := s1.emit .getPatients
  if !s2.currentPatientId.truthy then
    loadPatientChat { s2 with currentPatientId := patientId } patientId
  else s2

/-! ## The event loop -/

/-- Everything that can happen to the dashboard: a transport event, a user action, a
timer firing, time passing.  A pending timer may fire at any turn and time may pass at any
turn, so the runs of `step` include every schedule the browser can produce. -/
inductive Action where
  | connect
  | socketConnect (patientId : PatientId)
  | message (msg : Message)
  | typing (data : TypingData)
  | presence (users : List String)
  | patientsList (patients : List Patient)
  | patientEvent (event : PatientEvent)
  | loadPatientChat (patientId : PatientId)
  | clearChat (confirmed : Bool)
  | sendMessage (inputValue : String)
  | keystroke
  | sendFile (fileName : String) (content : Option String) (type : String)
  | timerFires (id : Nat)
  | elapse (ms : Nat)
  deriving DecidableEq, Repr

/-- One turn of the event loop. -/
def step (s : State) : Action → State
  | .connect => connect s
  | .socketConnect patientId => if s.socket then onConnect s patientId else s
  | .message msg => handleMessage s msg
  | .typing data => handleTypingIndicator s data
  | .presence users => updatePresence s users
  | .patientsList patients => updatePatientsList s patients
  | .patientEvent event => (handlePatientEvent s event).state
  | .loadPatientChat patientId => loadPatientChat s patientId
  | .clearChat confirmed => clearChat s confirmed
  | .sendMessage inputValue => sendMessage s inputValue
  | .keystroke => handleTyping s
  | .sendFile fileName content type => sendFileMessage s fileName content type
  | .timerFires id => fireTimer s id
  | .elapse ms => { s with clock := s.clock + ms }

/-- The state after a sequence of turns. -/
def run (s : State) (actions : List Action) : State :=
  actions.foldl step s

/-! ## Specification vocabulary -/

/-- The duplicate predicate in the words of the specification: equal text, equal role and
timestamps (a missing one read as 0) less than 1000 ms apart. -/
def Duplicate (a b : Message) : Prop :=
  a.text = b.text ∧ a.role = b.role ∧
    |a.timestampOrZero - b.timestampOrZero| < 1000

instance (a b : Message) : Decidable (Duplicate a b) := by
  unfold Duplicate; infer_instance

/-- No two entries of a log at different positions are duplicates of one another. -/
def DuplicateFree (log : List Message) : Prop :=
  ∀ (i j : Nat) (a b : Message), i ≠ j → log[i]? = some a → log[j]? = some b →
    ¬ Duplicate a b

/-- The state `handleMessage` builds when it accepts a message. -/
def acceptedState (s : State) (msg : Message) : State :=
  let target := targetOf s msg
  let s2 : State :=
    { s with
      messages := JsMap.set s.messages target (logOf s target ++ [tagMessage s msg]),
      analytics := { s.analytics with
        totalMessages := s.analytics.totalMessages + 1,
        messagesToday := s.analytics.messagesToday + 1 } }
  if msg.role = "patient" then
    { s2 with notifications := s.notifications ++
        [.sound, .toast "info" ("New message from " ++ msg.displayName)] }
  else s2

/-- Every log stored in the map is pairwise free of duplicates. -/
def LogsPairwise (m : JsMap (List Message)) : Prop :=
  ∀ p ∈ m, p.2.Pairwise (fun a b => ¬ Duplicate a b)

/-- A message with the given text, role, timestamp and conversation id, for worked
examples. -/
def sampleMessage (text role : String) (timestamp : Option Int) (patientId : PatientId) :
    Message :=
  { text := text, role := role, displayName := "A", timestamp := timestamp,
    status := "sent", file := none, patientId := patientId }

/-- The patient message "hi" for conversation "P1" with timestamp `t`. -/
def hiAt (t : Int) : Message :=
  sampleMessage "hi" "patient" (some t) (.str "P1")

/-- The roster entry the end-to-end scenario of the specification uses: id "P1",
name "A". -/
def patientP1 : Patient :=
  { id := .str "P1", name := "A", age := none, condition := none, online := false,
    typing := false, profile := none }

/-- A clinical profile for worked examples. -/
def sampleProfile : Profile :=
  { name := "A", age := some 40, condition := some "flu", symptoms := ["fever"],
    painLocation := "head", painLevel := 3, duration := "2 days", temperature := none }

/-- Every id of the patient map has an entry in the log map. -/
def PatientsHaveLogs (s : State) : Prop :=
  ∀ id, JsMap.has s.patients id = true → JsMap.has s.messages id = true

/-- The turn is a `patientEvent` of type `connected`. -/
def Action.isConnectedEvent : Action → Bool
  | .patientEvent event => event.type == "connected"
  | _ => false

/-- The turn is a `connected` lifecycle event that carries a profile and names an id with
neither a patient record nor a log: the one turn that stores a patient record without a
log. -/
def insertsPatientWithoutLog (s : State) : Action → Bool
  | .patientEvent event =>
    event.type == "connected" && event.profile.isSome &&
      !JsMap.has s.patients event.patientId && !JsMap.has s.messages event.patientId
  | _ => false

/-- The turns that deliver the messages of `arrivals` one after the other, each after its
own waiting time. -/
def deliverWithGaps (arrivals : List (Nat × Message)) : List Action :=
  arrivals.flatMap (fun x => [Action.elapse x.1, Action.message x.2])

/-- The message "hi" of the patient for conversation "P1" that carries no timestamp. -/
def hiUnstamped : Message :=
  sampleMessage "hi" "patient" none (.str "P1")

/-- The local echo `sendFileMessage` builds in state `s`. -/
def fileEcho (s : State) (fileName : String) (content : Option String) (type : String) :
    Message :=
  { text := fileMessageText fileName type, role := "doctor", displayName := "Dr. Dharshini",
    timestamp := some s.clock, status := "sent",
    file := some { name := fileName, content := content, type := type },
    patientId := s.currentPatientId }

/-- A dashboard that is connected and has "P1" as its current conversation. -/
def connectedP1 : State :=
  run (State.initial 0) [.connect, .socketConnect (.str "P1")]

/-- The server's echo of a file message: the text of the attachment, role `doctor`, the
server's timestamp, addressed to conversation "P1". -/
def serverEcho (fileName type : String) (timestamp : Int) : Message :=
  { text := fileMessageText fileName type, role := "doctor", displayName := "Dr. Dharshini",
    timestamp := some timestamp, status := "delivered", file := none,
    patientId := .str "P1" }

/-- A `connected` lifecycle event for "P2" that carries no profile. -/
def connectedWithoutProfile : PatientEvent :=
  { type := "connected", patientId := .str "P2", profile := none }

/-- A `connected` lifecycle event for "P2" that carries a profile. -/
def connectedWithProfile : PatientEvent :=
  { type := "connected", patientId := .str "P2", profile := some sampleProfile }

/-! ## Explicit time -/

/-- Of the pending timers due at or before `t`, the one the browser runs next: the
earliest due and, among those due together, the one registered first. -/
def nextDue : List Timer → Int → Option Timer
  | [], _ => none
  | tm :: rest, t =>
    match nextDue rest t with
    | some b => if tm.due ≤ t ∧ tm.due ≤ b.due then some tm else some b
    | none => if tm.due ≤ t then some tm else none

/-- Time runs up to `t`: as long as a pending timer is due it fires (at its due time, or
at once when it is overdue), then the clock shows `t`.  Each firing removes a timer and
registers none, so the number of pending timers is fuel enough. -/
def advanceFuel : Nat → State → Int → State
  | 0, s, t => { s with clock := t }
  | n + 1, s, t =>
    match nextDue s.timers t with
    | none => { s with clock := t }
    | some tm => advanceFuel n (fireTimer { s with clock := max s.clock tm.due } tm.id) t

/-- The dashboard is left alone for `ms` milliseconds: every timer that falls due in that
time fires. -/
def advance (s : State) (ms : Nat) : State :=
  advanceFuel s.timers.length s (s.clock + ms)

/-- The texts of the `message` emissions, oldest first. -/
def messagesEmitted (s : State) : List String :=
  s.emitted.filterMap (fun e =>
    match e with
    | .message text _ => some text
    | _ => none)

/-- The flags of the `typing` emissions, oldest first. -/
def typingEmitted (s : State) : List Bool :=
  s.emitted.filterMap (fun e =>
    match e with
    | .typing isTyping => some isTyping
    | _ => none)

/-- The part of the state the timers and the send guard live in. -/
def timerView (s : State) : List Timer × Nat × Bool × Option Nat :=
  (s.timers, s.nextTimerId, s.isSending, s.typingTimeout)

/-- The timer queue is as the browser and the class keep it: handles are unique and
below the next handle, a guard-release timer is pending only while the guard is set and
there is at most one, and a pending typing timer is the one `typingTimeout` refers to. -/
def TimersOk (s : State) : Prop :=
  (s.timers.map Timer.id).Nodup ∧
  (∀ tm ∈ s.timers, tm.id < s.nextTimerId) ∧
  (∀ tm ∈ s.timers, tm.action = .releaseSendGuard → s.isSending = true) ∧
  (∀ tm ∈ s.timers, ∀ u ∈ s.timers, tm.action = .releaseSendGuard →
    u.action = .releaseSendGuard → tm = u) ∧
  (∀ tm ∈ s.timers, tm.action = .typingStop → s.typingTimeout = some tm.id)

/-- The timer queue after `clearTimeout(handle)`. -/
def clearedTimers (timers : List Timer) (handle : Option Nat) : List Timer :=
  match handle with
  | none => timers
  | some h => timers.filter (fun t => decide (t.id ≠ h))

/-- Everything a timer callback leaves alone. -/
def timerFrame (s : State) :
    Bool × PatientId × JsMap Patient × JsMap (List Message) × Analytics ×
      List Notification × Nat × Option Nat × List String :=
  (s.socket, s.currentPatientId, s.patients, s.messages, s.analytics, s.notifications,
    s.nextTimerId, s.typingTimeout, messagesEmitted s)

/-- The text `trimmed` is `input` with the white space at its two ends removed, in the
words of `String.prototype.trim`: `input` is `trimmed` between two runs of white space,
and `trimmed` neither starts nor ends with white space. -/
def IsTrimOf (trimmed input : String) : Prop :=
  ∃ pre post : List Char,
    input.toList = pre ++ trimmed.toList ++ post ∧
    (∀ c ∈ pre, isJsWhiteSpace c = true) ∧ (∀ c ∈ post, isJsWhiteSpace c = true) ∧
    (∀ c, trimmed.toList.head? = some c → isJsWhiteSpace c = false) ∧
    (∀ c, trimmed.toList.getLast? = some c → isJsWhiteSpace c = false)

/-- A roster entry whose id is the empty string. -/
def patientEmptyId : Patient :=
  { id := .str "", name := "A", age := none, condition := none, online := false,
    typing := false, profile := none }

/-- The dashboard after the roster entry with the empty id has been stored and a typing
event for it (role `patient`, `isTyping` true) has been handled. -/
def typingEmptyId : State :=
  handleTypingIndicator (run (State.initial 0) [.patientsList [patientEmptyId]])
    { role := "patient", isTyping := true, displayName := "A", patientId := .str "" }

/-! ## Lemmas about `Map` -/

theorem JsMap.get_set_self {V : Type} (m : JsMap V) (k : PatientId) (v : V) :
    JsMap.get (JsMap.set m k v) k = some v := by
  induction m with
  | nil => simp [JsMap.set, JsMap.get]
  | cons p rest ih =>
    obtain ⟨k', v'⟩ := p
    by_cases h : k' = k
    · simp [JsMap.set, JsMap.get, h]
    · simp [JsMap.set, JsMap.get, h, ih]

theorem JsMap.get_set_of_ne {V : Type} (m : JsMap V) (k k2 : PatientId) (v : V)
    (hne : k2 ≠ k) : JsMap.get (JsMap.set m k v) k2 = JsMap.get m k2 := by
  induction m with
  | nil =>
    have : ¬ k = k2 := fun h => hne h.symm
    simp [JsMap.set, JsMap.get, this]
  | cons p rest ih =>
    obtain ⟨k', v'⟩ := p
    by_cases h : k' = k
    · subst h
      have : ¬ k' = k2 := fun h => hne h.symm
      simp [JsMap.set, JsMap.get, this]
    · by_cases h2 : k' = k2
      · subst h2
        simp [JsMap.set, JsMap.get, h]
      · simp [JsMap.set, JsMap.get, h, h2, ih]

theorem JsMap.mem_of_get {V : Type} (m : JsMap V) (k : PatientId) (v : V)
    (h : JsMap.get m k = some v) : (k, v) ∈ m := by
  induction m with
  | nil => simp [JsMap.get] at h
  | cons p rest ih =>
    obtain ⟨k', v'⟩ := p
    by_cases hk : k' = k
    · simp [JsMap.get, hk] at h
      simp [hk, h]
    · simp [JsMap.get, hk] at h
      exact List.mem_cons_of_mem _ (ih h)

theorem JsMap.mem_set {V : Type} (m : JsMap V) (k : PatientId) (v : V)
    (p : PatientId × V) (h : p ∈ JsMap.set m k v) : p ∈ m ∨ p = (k, v) := by
  induction m with
  | nil => simp [JsMap.set] at h; exact Or.inr h
  | cons q rest ih =>
    obtain ⟨k', v'⟩ := q
    by_cases hk : k' = k
    · simp [JsMap.set, hk] at h
      rcases h with h | h
      · exact Or.inr h
      · exact Or.inl (List.mem_cons_of_mem _ h)
    · simp [JsMap.set, hk] at h
      rcases h with h | h
      · exact Or.inl (by simp [h])
      · rcases ih h with h3 | h3
        · exact Or.inl (List.mem_cons_of_mem _ h3)
        · exact Or.inr h3

theorem JsMap.has_eq_true_iff {V : Type} (m : JsMap V) (k : PatientId) :
    JsMap.has m k = true ↔ ∃ v, JsMap.get m k = some v := by
  simp [JsMap.has, Option.isSome_iff_exists]

theorem JsMap.has_eq_false_iff {V : Type} (m : JsMap V) (k : PatientId) :
    JsMap.has m k = false ↔ JsMap.get m k = none := by
  simp [JsMap.has]

theorem JsMap.has_set {V : Type} (m : JsMap V) (k k2 : PatientId) (v : V) :
    JsMap.has (JsMap.set m k v) k2 = (decide (k2 = k) || JsMap.has m k2) := by
  by_cases h : k2 = k
  · subst h; simp [JsMap.has, JsMap.get_set_self]
  · simp [JsMap.has, JsMap.get_set_of_ne m k k2 v h, h]

theorem JsMap.set_set {V : Type} (m : JsMap V) (k : PatientId) (v w : V) :
    JsMap.set (JsMap.set m k v) k w = JsMap.set m k w := by
  induction m with
  | nil => simp [JsMap.set]
  | cons p rest ih =>
    obtain ⟨k', v'⟩ := p
    by_cases h : k' = k
    · simp [JsMap.set, h]
    · simp [JsMap.set, h, ih]

/-! ## Lemmas about the message store -/

theorem isDuplicateOf_iff (msg e : Message) :
    isDuplicateOf msg e = true ↔ Duplicate e msg := by
  simp only [isDuplicateOf, Duplicate, Bool.and_eq_true, beq_iff_eq, decide_eq_true_eq,
    and_assoc]
  constructor
  · rintro ⟨h1, h2, h3⟩
    refine ⟨h1, h2, ?_⟩
    rw [Int.abs_eq_natAbs]
    exact_mod_cast h3
  · rintro ⟨h1, h2, h3⟩
    refine ⟨h1, h2, ?_⟩
    rw [Int.abs_eq_natAbs] at h3
    exact_mod_cast h3

theorem Duplicate.symm {a b : Message} (h : Duplicate a b) : Duplicate b a := by
  obtain ⟨h1, h2, h3⟩ := h
  exact ⟨h1.symm, h2.symm, by rw [abs_sub_comm]; exact h3⟩

theorem isDuplicateOf_tagMessage (s : State) (msg e : Message) :
    isDuplicateOf (tagMessage s msg) e = isDuplicateOf msg e := by
  unfold tagMessage
  split <;> rfl

theorem tagMessage_text (s : State) (msg : Message) : (tagMessage s msg).text = msg.text := by
  unfold tagMessage
  split <;> rfl

theorem tagMessage_role (s : State) (msg : Message) : (tagMessage s msg).role = msg.role := by
  unfold tagMessage
  split <;> rfl

theorem tagMessage_timestamp (s : State) (msg : Message) :
    (tagMessage s msg).timestampOrZero = msg.timestampOrZero := by
  unfold tagMessage
  split <;> rfl

theorem tagMessage_displayName (s : State) (msg : Message) :
    (tagMessage s msg).displayName = msg.displayName := by
  unfold tagMessage
  split <;> rfl

/-- A message that names its conversation is stored as it arrived. -/
theorem tagMessage_of_truthy (s : State) (msg : Message) (h : msg.patientId.truthy = true) :
    tagMessage s msg = msg := by
  simp [tagMessage, h]

theorem handleMessage_of_duplicate (s : State) (msg : Message)
    (h : (logOf s (targetOf s msg)).any (isDuplicateOf msg) = true) :
    handleMessage s msg = s := by
  have htag : isDuplicateOf (tagMessage s msg) = isDuplicateOf msg :=
    funext (isDuplicateOf_tagMessage s msg)
  unfold logOf targetOf at h
  unfold handleMessage
  simp only [htag]
  cases hget : JsMap.get s.messages ((tagMessage s msg).patientId.orElse s.currentPatientId) with
  | none => simp [hget] at h
  | some log =>
    simp only [hget, Option.getD_some] at h
    simp [JsMap.has, hget, h]

theorem handleMessage_of_fresh (s : State) (msg : Message)
    (h : (logOf s (targetOf s msg)).any (isDuplicateOf msg) = false) :
    handleMessage s msg = acceptedState s msg := by
  have htag : isDuplicateOf (tagMessage s msg) = isDuplicateOf msg :=
    funext (isDuplicateOf_tagMessage s msg)
  unfold acceptedState
  unfold logOf targetOf at h ⊢
  unfold handleMessage
  simp only [htag, tagMessage_role, tagMessage_displayName]
  cases hget : JsMap.get s.messages ((tagMessage s msg).patientId.orElse s.currentPatientId) with
  | none =>
    by_cases hr : msg.role = "patient" <;>
      simp [JsMap.has, hget, JsMap.get_set_self, JsMap.set_set, hr, State.showToast,
        State.playNotificationSound]
  | some log =>
    simp only [hget, Option.getD_some] at h
    by_cases hr : msg.role = "patient" <;>
      simp [JsMap.has, hget, h, hr, State.showToast, State.playNotificationSound]

/-! ## Frame lemmas: what each handler does to the log map -/

theorem updatePatientStatus_messages (s : State) (id : PatientId) (status : String) :
    (updatePatientStatus s id status).messages = s.messages := by
  unfold updatePatientStatus
  split <;> rfl

theorem handleTypingIndicator_messages (s : State) (data : TypingData) :
    (handleTypingIndicator s data).messages = s.messages := by
  unfold handleTypingIndicator
  split
  · exact updatePatientStatus_messages _ _ _
  · split
    · exact updatePatientStatus_messages _ _ _
    · rfl

theorem handlePatientEvent_messages (s : State) (event : PatientEvent) :
    (handlePatientEvent s event).state.messages = s.messages := by
  unfold handlePatientEvent
  split
  · split
    · rfl
    · dsimp only
      split
      · split <;> rfl
      · rfl
  · split
    · simp [Outcome.state, updatePatientStatus_messages, State.showToast]
    · rfl

theorem sendMessage_messages (s : State) (inputValue : String) :
    (sendMessage s inputValue).messages = s.messages := by
  unfold sendMessage
  split
  · rfl
  · dsimp only
    split <;> rfl

theorem handleTyping_messages (s : State) : (handleTyping s).messages = s.messages := by
  unfold handleTyping
  split
  · rfl
  · simp only [State.clearTimeout, State.emit, State.setTimeout]
    split <;> rfl

theorem fireTimer_messages (s : State) (id : Nat) : (fireTimer s id).messages = s.messages := by
  unfold fireTimer
  split
  · rfl
  · split <;> rfl

theorem onConnect_messages (s : State) (id : PatientId) :
    (onConnect s id).messages = s.messages := by
  unfold onConnect
  simp only [State.emit, loadPatientChat]
  split <;> rfl

/-! ## The deduplication invariant -/

theorem LogsPairwise.set {m : JsMap (List Message)} (hm : LogsPairwise m) (k : PatientId)
    (log : List Message) (hlog : log.Pairwise (fun a b => ¬ Duplicate a b)) :
    LogsPairwise (JsMap.set m k log) := by
  intro p hp
  rcases JsMap.mem_set m k log p hp with h | h
  · exact hm p h
  · subst h; exact hlog

theorem LogsPairwise.logOf {s : State} (hm : LogsPairwise s.messages) (k : PatientId) :
    (logOf s k).Pairwise (fun a b => ¬ Duplicate a b) := by
  unfold DoctorDashboard.logOf
  cases hget : JsMap.get s.messages k with
  | none => simp
  | some log => exact hm _ (JsMap.mem_of_get _ _ _ hget)

theorem handleMessage_logsPairwise (s : State) (msg : Message)
    (hm : LogsPairwise s.messages) : LogsPairwise (handleMessage s msg).messages := by
  cases h : (logOf s (targetOf s msg)).any (isDuplicateOf msg) with
  | true => rw [handleMessage_of_duplicate s msg h]; exact hm
  | false =>
    rw [handleMessage_of_fresh s msg h]
    have hmsgs : (acceptedState s msg).messages =
        JsMap.set s.messages (targetOf s msg)
          (logOf s (targetOf s msg) ++ [tagMessage s msg]) := by
      unfold acceptedState
      split <;> rfl
    rw [hmsgs]
    apply hm.set
    rw [List.pairwise_append]
    refine ⟨hm.logOf _, List.pairwise_singleton _ _, ?_⟩
    intro a ha b hb hdup
    rw [List.mem_singleton] at hb
    subst hb
    rw [List.any_eq_false] at h
    apply h a ha
    rw [← isDuplicateOf_tagMessage s msg a]
    exact (isDuplicateOf_iff _ _).2 hdup

theorem addPatientIfNew_logsPairwise (s : State) (patient : Patient)
    (hm : LogsPairwise s.messages) : LogsPairwise (addPatientIfNew s patient).messages := by
  unfold addPatientIfNew
  split
  · dsimp only
    split
    · exact hm.set _ _ List.Pairwise.nil
    · exact hm
  · exact hm

theorem updatePatientsList_logsPairwise (patients : List Patient) (s : State)
    (hm : LogsPairwise s.messages) :
    LogsPairwise (updatePatientsList s patients).messages := by
  unfold updatePatientsList
  induction patients generalizing s with
  | nil => exact hm
  | cons p rest ih => exact ih _ (addPatientIfNew_logsPairwise s p hm)

theorem clearChat_logsPairwise (s : State) (confirmed : Bool)
    (hm : LogsPairwise s.messages) : LogsPairwise (clearChat s confirmed).messages := by
  unfold clearChat
  split
  · exact hm
  · split
    · exact hm.set _ _ List.Pairwise.nil
    · exact hm

theorem sendFileMessage_logsPairwise (s : State) (fileName : String)
    (content : Option String) (type : String) (hm : LogsPairwise s.messages) :
    LogsPairwise (sendFileMessage s fileName content type).messages := by
  unfold sendFileMessage
  split
  · exact hm
  · exact handleMessage_logsPairwise _ _ hm

theorem step_logsPairwise (s : State) (a : Action) (hm : LogsPairwise s.messages) :
    LogsPairwise (step s a).messages := by
  cases a with
  | connect => exact hm
  | socketConnect id =>
    simp only [step]
    split
    · rw [onConnect_messages]; exact hm
    · exact hm
  | message msg => exact handleMessage_logsPairwise s msg hm
  | typing data => simp only [step]; rw [handleTypingIndicator_messages]; exact hm
  | presence users => exact hm
  | patientsList patients => exact updatePatientsList_logsPairwise patients s hm
  | patientEvent event => simp only [step]; rw [handlePatientEvent_messages]; exact hm
  | loadPatientChat id => exact hm
  | clearChat confirmed => exact clearChat_logsPairwise s confirmed hm
  | sendMessage inputValue => simp only [step]; rw [sendMessage_messages]; exact hm
  | keystroke => simp only [step]; rw [handleTyping_messages]; exact hm
  | sendFile fileName content type => exact sendFileMessage_logsPairwise s _ _ _ hm
  | timerFires id => simp only [step]; rw [fireTimer_messages]; exact hm
  | elapse ms => exact hm

theorem run_logsPairwise (actions : List Action) (s : State)
    (hm : LogsPairwise s.messages) : LogsPairwise (run s actions).messages := by
  unfold run
  induction actions generalizing s with
  | nil => exact hm
  | cons a rest ih => exact ih _ (step_logsPairwise s a hm)

theorem duplicateFree_of_pairwise (log : List Message)
    (h : log.Pairwise (fun a b => ¬ Duplicate a b)) : DuplicateFree log := by
  intro i j a b hij hi hj hdup
  rw [List.pairwise_iff_getElem] at h
  obtain ⟨hi1, rfl⟩ := List.getElem?_eq_some.1 hi
  obtain ⟨hj1, rfl⟩ := List.getElem?_eq_some.1 hj
  rcases Nat.lt_or_gt_of_ne hij with hlt | hgt
  · exact h i j hi1 hj1 hlt hdup
  · exact h j i hj1 hi1 hgt hdup.symm

/-- Claim C1.  Dedup invariant: in every state reached from the initial state by any
sequence of turns of the event loop (message deliveries, file sends, roster snapshots,
lifecycle events, conversation switches, chat clearing and every other turn), no log of
the conversation map has, at two different positions, entries with equal text, equal
role and timestamps (a missing one read as 0) less than 1000 ms apart. -/
theorem dedup_invariant (t0 : Int) (actions : List Action) (id : PatientId)
    (log : List Message) (hlog : (id, log) ∈ (run (State.initial t0) actions).messages)
    (i j : Nat) (a b : Message) (hij : i ≠ j) (hi : log[i]? = some a)
    (hj : log[j]? = some b) :
    ¬ (a.text = b.text ∧ a.role = b.role ∧
        |a.timestampOrZero - b.timestampOrZero| < 1000) := by
  have hinit : LogsPairwise (State.initial t0).messages := by
    intro p hp
    simp [State.initial] at hp
  have hrun := run_logsPairwise actions (State.initial t0) hinit
  exact duplicateFree_of_pairwise log (hrun (id, log) hlog) i j a b hij hi hj

theorem dedup_invariant_witness :
    ((PatientId.str "P1", [hiAt 0, hiAt 2000]) ∈
      (run (State.initial 0) [.message (hiAt 0), .message (hiAt 2000)]).messages) ∧
    ¬ ((hiAt 0).text = (hiAt 2000).text ∧ (hiAt 0).role = (hiAt 2000).role ∧
        |(hiAt 0).timestampOrZero - (hiAt 2000).timestampOrZero| < 1000) :=
  ⟨by decide,
   dedup_invariant 0 [.message (hiAt 0), .message (hiAt 2000)] (.str "P1")
     [hiAt 0, hiAt 2000] (by decide) 0 1 (hiAt 0) (hiAt 2000) (by decide) rfl rfl⟩

/-! ## Accepting and discarding a message -/

theorem acceptedState_messages (s : State) (msg : Message) :
    (acceptedState s msg).messages =
      JsMap.set s.messages (targetOf s msg)
        (logOf s (targetOf s msg) ++ [tagMessage s msg]) := by
  unfold acceptedState
  split <;> rfl

theorem acceptedState_currentPatientId (s : State) (msg : Message) :
    (acceptedState s msg).currentPatientId = s.currentPatientId := by
  unfold acceptedState
  split <;> rfl

theorem any_isDuplicateOf_eq_false (log : List Message) (msg : Message)
    (h : ∀ e ∈ log, ¬ Duplicate e msg) : log.any (isDuplicateOf msg) = false := by
  rw [List.any_eq_false]
  intro e he hdup
  exact h e he ((isDuplicateOf_iff msg e).1 hdup)

theorem any_isDuplicateOf_eq_true (log : List Message) (msg e : Message) (he : e ∈ log)
    (h : Duplicate e msg) : log.any (isDuplicateOf msg) = true := by
  rw [List.any_eq_true]
  exact ⟨e, he, (isDuplicateOf_iff msg e).2 h⟩

theorem handleMessage_currentPatientId (s : State) (msg : Message) :
    (handleMessage s msg).currentPatientId = s.currentPatientId := by
  cases h : (logOf s (targetOf s msg)).any (isDuplicateOf msg) with
  | true => rw [handleMessage_of_duplicate s msg h]
  | false => rw [handleMessage_of_fresh s msg h, acceptedState_currentPatientId]

theorem tagMessage_congr (s1 s2 : State) (msg : Message)
    (h : s1.currentPatientId = s2.currentPatientId) : tagMessage s1 msg = tagMessage s2 msg := by
  unfold tagMessage
  rw [h]

theorem targetOf_congr (s1 s2 : State) (msg : Message)
    (h : s1.currentPatientId = s2.currentPatientId) : targetOf s1 msg = targetOf s2 msg := by
  unfold targetOf
  rw [tagMessage_congr s1 s2 msg h, h]

theorem logOf_acceptedState_target (s : State) (msg : Message) :
    logOf (acceptedState s msg) (targetOf s msg) =
      logOf s (targetOf s msg) ++ [tagMessage s msg] := by
  simp only [logOf, acceptedState_messages, JsMap.get_set_self, Option.getD_some]

theorem duplicate_append_is_noop_aux (s : State) (msg e : Message)
    (he : e ∈ logOf s (targetOf s msg)) (hdup : Duplicate e msg) :
    handleMessage s msg = s :=
  handleMessage_of_duplicate s msg (any_isDuplicateOf_eq_true _ msg e he hdup)

/-- Claim C3.  A duplicate append is a silent no-op: when some entry of the target
conversation's log has the text and role of the message and a timestamp less than 1000 ms
from its timestamp, `handleMessage` returns the state it was given, so every log, both
counters, the patient map, the current conversation and the notification trace (no
sound, no toast) are unchanged. -/
theorem duplicate_append_is_noop (s : State) (msg e : Message)
    (he : e ∈ logOf s (targetOf s msg)) (hdup : Duplicate e msg) :
    handleMessage s msg = s :=
  duplicate_append_is_noop_aux s msg e he hdup

theorem duplicate_append_is_noop_witness :
    (hiAt 1000 ∈ logOf (run (State.initial 0) [.message (hiAt 1000)])
        (targetOf (run (State.initial 0) [.message (hiAt 1000)]) (hiAt 1999))) ∧
    Duplicate (hiAt 1000) (hiAt 1999) ∧
    handleMessage (run (State.initial 0) [.message (hiAt 1000)]) (hiAt 1999) =
      run (State.initial 0) [.message (hiAt 1000)] :=
  ⟨by decide, by decide,
   duplicate_append_is_noop (run (State.initial 0) [.message (hiAt 1000)]) (hiAt 1999)
     (hiAt 1000) (by decide) (by decide)⟩

/-- Claim C5.  Accepted append postcondition: when no entry of the target conversation's
log is a duplicate of the message, `handleMessage` makes that log the old log (empty when
there was none) followed by the message, which is stored as the handler's first statement
left it (a missing conversation id filled in, nothing else touched, and untouched
altogether when the message names its conversation); `totalMessages` and `messagesToday`
each grow by exactly 1; the log of every other conversation is as before; and the
notification trace grows by exactly one sound and one toast when the role is `patient`
and by nothing otherwise. -/
theorem accepted_append_postcondition (s : State) (msg : Message)
    (hfresh : ∀ e ∈ logOf s (targetOf s msg), ¬ Duplicate e msg) :
    JsMap.get (handleMessage s msg).messages (targetOf s msg) =
        some (logOf s (targetOf s msg) ++ [tagMessage s msg]) ∧
      (msg.patientId.truthy = true → tagMessage s msg = msg) ∧
      tagMessage s msg = { msg with patientId := (tagMessage s msg).patientId } ∧
      (handleMessage s msg).analytics.totalMessages = s.analytics.totalMessages + 1 ∧
      (handleMessage s msg).analytics.messagesToday = s.analytics.messagesToday + 1 ∧
      (∀ k, k ≠ targetOf s msg →
        JsMap.get (handleMessage s msg).messages k = JsMap.get s.messages k) ∧
      (handleMessage s msg).notifications =
        s.notifications ++
          (if msg.role = "patient" then
            [Notification.sound,
             Notification.toast "info" ("New message from " ++ msg.displayName)]
           else []) := by
  rw [handleMessage_of_fresh s msg (any_isDuplicateOf_eq_false _ msg hfresh)]
  refine ⟨?_, tagMessage_of_truthy s msg, ?_, ?_, ?_, ?_, ?_⟩
  · rw [acceptedState_messages, JsMap.get_set_self]
  · unfold tagMessage
    split <;> rfl
  · unfold acceptedState
    split <;> rfl
  · unfold acceptedState
    split <;> rfl
  · intro k hk
    rw [acceptedState_messages, JsMap.get_set_of_ne _ _ _ _ hk]
  · unfold acceptedState
    split <;> simp

theorem accepted_append_postcondition_witness :
    (∀ e ∈ logOf (State.initial 0) (targetOf (State.initial 0) (hiAt 1000)),
        ¬ Duplicate e (hiAt 1000)) ∧
    JsMap.get (handleMessage (State.initial 0) (hiAt 1000)).messages (.str "P1") =
        some [hiAt 1000] ∧
    (handleMessage (State.initial 0) (hiAt 1000)).analytics.totalMessages = 1 ∧
    (handleMessage (State.initial 0) (hiAt 1000)).notifications =
        [Notification.sound, Notification.toast "info" "New message from A"] :=
  have h := accepted_append_postcondition (State.initial 0) (hiAt 1000) (by decide)
  ⟨by decide, h.1, h.2.2.2.1, h.2.2.2.2.2.2⟩

/-- Claim C2.  Dedup window: when the log of conversation `c` holds no entry with the text
and role of `m1`, and `m1` and then `m2` (same text, same role) are delivered to `c` one after the
other by `handleMessage`, the log afterwards holds exactly one entry with that text and role when
the two timestamps differ by at most 999 ms, and exactly two when they differ by 1000 ms
or more. -/
theorem dedup_window (s : State) (c : PatientId) (m1 m2 : Message)
    (h1 : targetOf s m1 = c) (h2 : targetOf (handleMessage s m1) m2 = c)
    (htext : m2.text = m1.text) (hrole : m2.role = m1.role)
    (hnone : ∀ e ∈ logOf s c, ¬ (e.text = m1.text ∧ e.role = m1.role)) :
    (|m1.timestampOrZero - m2.timestampOrZero| ≤ 999 →
        (logOf (handleMessage (handleMessage s m1) m2) c).countP
          (fun e => decide (e.text = m1.text ∧ e.role = m1.role)) = 1) ∧
      (1000 ≤ |m1.timestampOrZero - m2.timestampOrZero| →
        (logOf (handleMessage (handleMessage s m1) m2) c).countP
          (fun e => decide (e.text = m1.text ∧ e.role = m1.role)) = 2) := by
  have hzero : (logOf s c).countP (fun e => decide (e.text = m1.text ∧ e.role = m1.role)) = 0 := by
    rw [List.countP_eq_zero]
    intro e he
    simpa using hnone e he
  have hfresh1 : ∀ e ∈ logOf s (targetOf s m1), ¬ Duplicate e m1 := by
    intro e he hd
    rw [h1] at he
    exact hnone e he ⟨hd.1, hd.2.1⟩
  have hs1 : handleMessage s m1 = acceptedState s m1 :=
    handleMessage_of_fresh s m1 (any_isDuplicateOf_eq_false _ m1 hfresh1)
  have hcur : (acceptedState s m1).currentPatientId = s.currentPatientId :=
    acceptedState_currentPatientId s m1
  have ht2 : targetOf (acceptedState s m1) m2 = c := by
    rw [← hs1]; exact h2
  have hlog1 : logOf (acceptedState s m1) c = logOf s c ++ [tagMessage s m1] := by
    have := logOf_acceptedState_target s m1
    rwa [h1] at this
  have hcount1 : (logOf (acceptedState s m1) c).countP
      (fun e => decide (e.text = m1.text ∧ e.role = m1.role)) = 1 := by
    rw [hlog1, List.countP_append, hzero]
    simp [List.countP_cons, tagMessage_text, tagMessage_role]
  rw [hs1]
  constructor
  · intro hclose
    have hdup : Duplicate (tagMessage s m1) m2 := by
      refine ⟨?_, ?_, ?_⟩
      · rw [tagMessage_text, htext]
      · rw [tagMessage_role, hrole]
      · rw [tagMessage_timestamp]; omega
    have hmem : tagMessage s m1 ∈ logOf (acceptedState s m1) (targetOf (acceptedState s m1) m2) := by
      rw [ht2, hlog1]; simp
    rw [duplicate_append_is_noop_aux _ m2 _ hmem hdup]
    exact hcount1
  · intro hfar
    have hfresh2 : ∀ e ∈ logOf (acceptedState s m1) (targetOf (acceptedState s m1) m2),
        ¬ Duplicate e m2 := by
      intro e he hd
      rw [ht2, hlog1, List.mem_append, List.mem_singleton] at he
      rcases he with he | he
      · exact hnone e he ⟨hd.1.trans htext, hd.2.1.trans hrole⟩
      · subst he
        have := hd.2.2
        rw [tagMessage_timestamp] at this
        omega
    rw [handleMessage_of_fresh _ m2 (any_isDuplicateOf_eq_false _ m2 hfresh2)]
    have := logOf_acceptedState_target (acceptedState s m1) m2
    rw [ht2] at this
    rw [this, List.countP_append, hcount1]
    simp [List.countP_cons, tagMessage_text, tagMessage_role, htext, hrole]

theorem dedup_window_witness :
    (targetOf (State.initial 0) (hiAt 0) = .str "P1") ∧
    (∀ e ∈ logOf (State.initial 0) (.str "P1"),
        ¬ (e.text = (hiAt 0).text ∧ e.role = (hiAt 0).role)) ∧
    (logOf (handleMessage (handleMessage (State.initial 0) (hiAt 0)) (hiAt 999))
        (.str "P1")).countP
      (fun e => decide (e.text = (hiAt 0).text ∧ e.role = (hiAt 0).role)) = 1 ∧
    (logOf (handleMessage (handleMessage (State.initial 0) (hiAt 0)) (hiAt 1000))
        (.str "P1")).countP
      (fun e => decide (e.text = (hiAt 0).text ∧ e.role = (hiAt 0).role)) = 2 :=
  ⟨by decide, by decide,
   (dedup_window (State.initial 0) (.str "P1") (hiAt 0) (hiAt 999) (by decide) (by decide)
      rfl rfl (by decide)).1 (by decide),
   (dedup_window (State.initial 0) (.str "P1") (hiAt 0) (hiAt 1000) (by decide) (by decide)
      rfl rfl (by decide)).2 (by decide)⟩

/-! ## Arrival order -/

theorem duplicate_tagMessage_left (s : State) (a b : Message) :
    Duplicate (tagMessage s a) b ↔ Duplicate a b := by
  unfold Duplicate
  rw [tagMessage_text, tagMessage_role, tagMessage_timestamp]

theorem run_cons (s : State) (a : Action) (rest : List Action) :
    run s (a :: rest) = run (step s a) rest := rfl

theorem logOf_run_messages (c : PatientId) (ms : List Message) (s : State)
    (htarget : ∀ m ∈ ms, targetOf s m = c)
    (hold : ∀ e ∈ logOf s c, ∀ m ∈ ms, ¬ Duplicate e m)
    (hdistinct : ms.Pairwise (fun a b => ¬ Duplicate a b)) :
    logOf (run s (ms.map Action.message)) c = logOf s c ++ ms.map (tagMessage s) := by
  induction ms generalizing s with
  | nil => simp [run]
  | cons m rest ih =>
    have hm : targetOf s m = c := htarget m (List.mem_cons_self _ _)
    have hfresh : ∀ e ∈ logOf s (targetOf s m), ¬ Duplicate e m := by
      intro e he
      rw [hm] at he
      exact hold e he m (List.mem_cons_self _ _)
    have hstep : handleMessage s m = acceptedState s m :=
      handleMessage_of_fresh s m (any_isDuplicateOf_eq_false _ m hfresh)
    have hcur := acceptedState_currentPatientId s m
    have hlog : logOf (acceptedState s m) c = logOf s c ++ [tagMessage s m] := by
      have := logOf_acceptedState_target s m
      rwa [hm] at this
    rw [List.pairwise_cons] at hdistinct
    rw [List.map_cons, run_cons]
    show logOf (run (handleMessage s m) (rest.map Action.message)) c = _
    rw [hstep, ih (acceptedState s m)]
    · have hmap : rest.map (tagMessage (acceptedState s m)) = rest.map (tagMessage s) :=
        List.map_congr_left (fun x _ => tagMessage_congr _ _ x hcur)
      rw [hlog, hmap, List.map_cons, List.append_assoc]
      rfl
    · intro x hx
      rw [targetOf_congr _ s x hcur]
      exact htarget x (List.mem_cons_of_mem _ hx)
    · intro e he x hx
      rw [hlog, List.mem_append, List.mem_singleton] at he
      rcases he with he | he
      · exact hold e he x (List.mem_cons_of_mem _ hx)
      · subst he
        rw [duplicate_tagMessage_left]
        exact hdistinct.1 x hx
    · exact hdistinct.2

/-- Claim C4, as the code has it.  Order preservation: when the messages `m1, ..., mn`
are pairwise non-duplicates (no two of them have equal text, equal role and timestamps
less than 1000 ms apart) and are delivered in that order by `handleMessage` to one
conversation whose log is empty, the log becomes `[m1, ..., mn]` in arrival order, each
entry stored as the handler's first statement left it, and exactly as it arrived when
every message names its conversation.  (`handleMessage` never moves the current
conversation, so the target of every message is the one computed in the starting
state.) -/
theorem order_preservation (s : State) (c : PatientId) (ms : List Message)
    (htarget : ∀ m ∈ ms, targetOf s m = c) (hempty : logOf s c = [])
    (hdistinct : ms.Pairwise (fun a b => ¬ Duplicate a b)) :
    logOf (run s (ms.map Action.message)) c = ms.map (tagMessage s) ∧
      ((∀ m ∈ ms, m.patientId.truthy = true) →
        logOf (run s (ms.map Action.message)) c = ms) := by
  have h := logOf_run_messages c ms s htarget (by simp [hempty]) hdistinct
  rw [hempty, List.nil_append] at h
  refine ⟨h, fun htruthy => ?_⟩
  rw [h]
  conv_rhs => rw [← List.map_id ms]
  exact List.map_congr_left (fun m hm => tagMessage_of_truthy s m (htruthy m hm))

theorem order_preservation_witness :
    (∀ m ∈ [hiAt 3000, hiAt 0, hiAt 1500], targetOf (State.initial 0) m = .str "P1") ∧
    logOf (State.initial 0) (.str "P1") = [] ∧
    [hiAt 3000, hiAt 0, hiAt 1500].Pairwise (fun a b => ¬ Duplicate a b) ∧
    logOf (run (State.initial 0) ([hiAt 3000, hiAt 0, hiAt 1500].map Action.message))
      (.str "P1") = [hiAt 3000, hiAt 0, hiAt 1500] :=
  ⟨by decide, by decide, by decide,
   (order_preservation (State.initial 0) (.str "P1") [hiAt 3000, hiAt 0, hiAt 1500]
      (by decide) (by decide) (by decide)).2 (by decide)⟩

/-- Counterexample to claim C4 as written: two distinct messages (same text and role,
timestamps 0 and 500) delivered to an empty conversation leave a log of one entry. -/
theorem order_preservation_counterexample :
    [hiAt 0, hiAt 500].Nodup ∧
    logOf (State.initial 0) (.str "P1") = [] ∧
    logOf (run (State.initial 0) ([hiAt 0, hiAt 500].map Action.message)) (.str "P1") =
      [hiAt 0] ∧
    logOf (run (State.initial 0) ([hiAt 0, hiAt 500].map Action.message)) (.str "P1") ≠
      [hiAt 0, hiAt 500] := by
  decide

/-! ## Unread counts -/

/-- Claim C6.  Unread count correctness: in every state (so in every state reached by
message deliveries and conversation switches) and for every conversation id `c`,
`getUnreadCount c` is 0 when `c` is the current conversation and otherwise the number of
entries with role `patient` in the log of `c`, 0 when `c` has no log.  Scenario: after
"hi" from the patient arrives for "P1" while "P2" is current the count of "P1" is 1, and
after switching to "P1" it is 0. -/
theorem unread_count_correct :
    (∀ (s : State) (c : PatientId),
      (c = s.currentPatientId → getUnreadCount s c = 0) ∧
      (c ≠ s.currentPatientId →
        getUnreadCount s c =
          match JsMap.get s.messages c with
          | some log => log.countP (fun m => decide (m.role = "patient"))
          | none => 0)) ∧
    getUnreadCount
      (run (State.initial 0) [.loadPatientChat (.str "P2"), .message (hiAt 1000)])
      (.str "P1") = 1 ∧
    getUnreadCount
      (run (State.initial 0)
        [.loadPatientChat (.str "P2"), .message (hiAt 1000), .loadPatientChat (.str "P1")])
      (.str "P1") = 0 := by
  refine ⟨fun s c => ⟨fun h => ?_, fun h => ?_⟩, by decide, by decide⟩
  · simp [getUnreadCount, h]
  · unfold getUnreadCount
    rw [if_neg h]
    cases JsMap.get s.messages c with
    | none => simp
    | some log =>
      have hfun : (fun m : Message => m.role == "patient") =
          (fun m => decide (m.role = "patient")) := by
        funext m
        by_cases hm : m.role = "patient" <;> simp [hm]
      simp [List.countP_eq_length_filter, hfun]

/-! ## Roster reconciliation -/

theorem addPatientIfNew_patients_get (s : State) (patient : Patient) (id : PatientId)
    (hknown : JsMap.has s.patients id = true) :
    JsMap.get (addPatientIfNew s patient).patients id = JsMap.get s.patients id := by
  unfold addPatientIfNew
  split
  · rename_i hnew
    have hne : id ≠ patient.id := by
      intro h
      subst h
      simp [hknown] at hnew
    dsimp only
    split <;> exact JsMap.get_set_of_ne _ _ _ _ hne
  · rfl

theorem updatePatientsList_patients_get (snapshot : List Patient) (s : State)
    (id : PatientId) (hknown : JsMap.has s.patients id = true) :
    JsMap.get (updatePatientsList s snapshot).patients id = JsMap.get s.patients id := by
  unfold updatePatientsList
  induction snapshot generalizing s with
  | nil => rfl
  | cons p rest ih =>
    have hstep := addPatientIfNew_patients_get s p id hknown
    have hknown2 : JsMap.has (addPatientIfNew s p).patients id = true := by
      unfold JsMap.has at hknown ⊢
      rw [hstep]; exact hknown
    rw [List.foldl_cons, ih _ hknown2, hstep]

/-- Claim C7.  Roster non-destructive merge: for every state and every snapshot,
`updatePatientsList` leaves the record of every patient id that was known before the call
exactly as it was (its profile included), whether or not the id occurs in the
snapshot. -/
theorem roster_merge_keeps_known (s : State) (snapshot : List Patient) (id : PatientId)
    (hknown : JsMap.has s.patients id = true) :
    JsMap.get (updatePatientsList s snapshot).patients id = JsMap.get s.patients id :=
  updatePatientsList_patients_get snapshot s id hknown

theorem roster_merge_keeps_known_witness :
    JsMap.has (run (State.initial 0)
        [.connect, .patientEvent ⟨"connected", .str "P1", some sampleProfile⟩]).patients
      (.str "P1") = true ∧
    (JsMap.get (updatePatientsList
        (run (State.initial 0)
          [.connect, .patientEvent ⟨"connected", .str "P1", some sampleProfile⟩])
        [patientP1]).patients (.str "P1")).map (fun p => p.profile) =
      some (some sampleProfile) :=
  ⟨by decide,
   by
    rw [roster_merge_keeps_known
      (run (State.initial 0)
        [.connect, .patientEvent ⟨"connected", .str "P1", some sampleProfile⟩])
      [patientP1] (.str "P1") (by decide)]
    decide⟩

/-! ## Send rejection -/

/-- Claim C10.  Send rejection: when the guard `isSending` is set, or the input is empty
after trimming, or there is no socket, or there is no current conversation (the pointer
is `null`, `undefined` or the empty string), `sendMessage` returns the state it was
given: nothing is emitted, and the guard, the logs and the counters are unchanged. -/
theorem send_rejection (s : State) (inputValue : String)
    (h : s.isSending = true ∨ jsTrim inputValue = "" ∨ s.socket = false ∨
      s.currentPatientId.truthy = false) :
    sendMessage s inputValue = s := by
  unfold sendMessage
  by_cases hs : s.isSending = true
  · simp [hs]
  · rcases h with h | h | h | h
    · exact absurd h hs
    · simp [h]
    · simp [h]
    · simp [h]

theorem send_rejection_witness :
    (jsTrim " \t\n" = "") ∧
    sendMessage (loadPatientChat (connect (State.initial 0)) (.str "P1")) " \t\n" =
      loadPatientChat (connect (State.initial 0)) (.str "P1") :=
  ⟨by decide,
   send_rejection (loadPatientChat (connect (State.initial 0)) (.str "P1")) " \t\n"
     (Or.inr (Or.inl (by decide)))⟩

/-! ## Roster insertion -/

theorem addPatientIfNew_of_ne (s : State) (patient : Patient) (id : PatientId)
    (hne : id ≠ patient.id) :
    JsMap.get (addPatientIfNew s patient).patients id = JsMap.get s.patients id ∧
      JsMap.get (addPatientIfNew s patient).messages id = JsMap.get s.messages id := by
  unfold addPatientIfNew
  split
  · dsimp only
    split
    · exact ⟨JsMap.get_set_of_ne _ _ _ _ hne, JsMap.get_set_of_ne _ _ _ _ hne⟩
    · exact ⟨JsMap.get_set_of_ne _ _ _ _ hne, rfl⟩
  · exact ⟨rfl, rfl⟩

theorem addPatientIfNew_new_patient (s : State) (patient : Patient)
    (hnew : JsMap.has s.patients patient.id = false) :
    JsMap.get (addPatientIfNew s patient).patients patient.id = some patient := by
  unfold addPatientIfNew
  simp only [hnew, Bool.not_false, if_true]
  split <;> exact JsMap.get_set_self _ _ _

theorem addPatientIfNew_new_log (s : State) (patient : Patient)
    (hnew : JsMap.has s.patients patient.id = false)
    (hnolog : JsMap.has s.messages patient.id = false) :
    JsMap.get (addPatientIfNew s patient).messages patient.id = some [] := by
  unfold addPatientIfNew
  simp only [hnew, hnolog, Bool.not_false, if_true]
  exact JsMap.get_set_self _ _ _

theorem addPatientIfNew_keeps_log (s : State) (patient : Patient) (id : PatientId)
    (log : List Message) (hlog : JsMap.get s.messages id = some log) :
    JsMap.get (addPatientIfNew s patient).messages id = some log := by
  by_cases hne : id = patient.id
  · subst hne
    have hhas : JsMap.has s.messages patient.id = true := by simp [JsMap.has, hlog]
    unfold addPatientIfNew
    split
    · simp only [hhas, Bool.not_true]
      exact hlog
    · exact hlog
  · rw [(addPatientIfNew_of_ne s patient id hne).2, hlog]

theorem updatePatientsList_cons (s : State) (p : Patient) (rest : List Patient) :
    updatePatientsList s (p :: rest) = updatePatientsList (addPatientIfNew s p) rest := rfl

theorem updatePatientsList_keeps_log (snapshot : List Patient) (s : State) (id : PatientId)
    (log : List Message) (hlog : JsMap.get s.messages id = some log) :
    JsMap.get (updatePatientsList s snapshot).messages id = some log := by
  induction snapshot generalizing s with
  | nil => exact hlog
  | cons p rest ih =>
    rw [updatePatientsList_cons]
    exact ih _ (addPatientIfNew_keeps_log s p id log hlog)

theorem updatePatientsList_has_mono (snapshot : List Patient) (s : State) (id : PatientId)
    (hknown : JsMap.has s.patients id = true) :
    JsMap.has (updatePatientsList s snapshot).patients id = true := by
  unfold JsMap.has at hknown ⊢
  rw [updatePatientsList_patients_get snapshot s id hknown]
  exact hknown

theorem updatePatientsList_first_entry (snapshot : List Patient) (s : State)
    (id : PatientId) (p : Patient) (hnew : JsMap.has s.patients id = false)
    (hfind : snapshot.find? (fun q => decide (q.id = id)) = some p) :
    JsMap.get (updatePatientsList s snapshot).patients id = some p := by
  induction snapshot generalizing s with
  | nil => simp at hfind
  | cons q rest ih =>
    rw [updatePatientsList_cons]
    by_cases hq : q.id = id
    · simp [List.find?_cons, hq] at hfind
      subst hfind
      subst hq
      have h1 := addPatientIfNew_new_patient s q hnew
      have h2 : JsMap.has (addPatientIfNew s q).patients q.id = true := by
        simp [JsMap.has, h1]
      rw [updatePatientsList_patients_get rest _ q.id h2, h1]
    · simp [List.find?_cons, hq] at hfind
      apply ih _ _ hfind
      have hne : id ≠ q.id := fun h => hq h.symm
      unfold JsMap.has at hnew ⊢
      rw [(addPatientIfNew_of_ne s q id hne).1]
      exact hnew

theorem updatePatientsList_new_log (snapshot : List Patient) (s : State) (id : PatientId)
    (hnew : JsMap.has s.patients id = false) (hnolog : JsMap.has s.messages id = false)
    (hmem : ∃ p ∈ snapshot, p.id = id) :
    JsMap.get (updatePatientsList s snapshot).messages id = some [] := by
  induction snapshot generalizing s with
  | nil => simp at hmem
  | cons q rest ih =>
    rw [updatePatientsList_cons]
    by_cases hq : q.id = id
    · subst hq
      exact updatePatientsList_keeps_log rest _ q.id []
        (addPatientIfNew_new_log s q hnew hnolog)
    · have hne : id ≠ q.id := fun h => hq h.symm
      obtain ⟨p, hp, hpid⟩ := hmem
      rw [List.mem_cons] at hp
      rcases hp with hp | hp
      · subst hp; exact absurd hpid hq
      · apply ih
        · unfold JsMap.has at hnew ⊢
          rw [(addPatientIfNew_of_ne s q id hne).1]; exact hnew
        · unfold JsMap.has at hnolog ⊢
          rw [(addPatientIfNew_of_ne s q id hne).2]; exact hnolog
        · exact ⟨p, hp, hpid⟩

theorem updatePatientsList_known_after (snapshot : List Patient) (s : State) (p : Patient)
    (hp : p ∈ snapshot) : JsMap.has (updatePatientsList s snapshot).patients p.id = true := by
  induction snapshot generalizing s with
  | nil => simp at hp
  | cons q rest ih =>
    rw [updatePatientsList_cons]
    rw [List.mem_cons] at hp
    rcases hp with hp | hp
    · subst hp
      apply updatePatientsList_has_mono
      cases hknown : JsMap.has s.patients p.id with
      | true =>
        unfold JsMap.has at hknown ⊢
        rw [addPatientIfNew_patients_get s p p.id hknown]; exact hknown
      | false => simp [JsMap.has, addPatientIfNew_new_patient s p hknown]
    · exact ih _ hp

/-- Claim C8, as the code has it.  Roster insert: for every state and every snapshot,
after `updatePatientsList` every id of the snapshot is a known patient, and every id of
the snapshot that was unknown before the call has a conversation log; for an id that was
unknown before the call the stored record is the snapshot's first entry for that id, and
its log is empty when it had none; a log that existed before the call is kept with its
entries.  Scenario: the snapshot with the one entry of id "P1" and name "A" on the
initial state gives patient "P1" with an empty log. -/
theorem roster_insert (s : State) (snapshot : List Patient) :
    (∀ p ∈ snapshot, JsMap.has (updatePatientsList s snapshot).patients p.id = true) ∧
    (∀ p ∈ snapshot, JsMap.has s.patients p.id = false →
      JsMap.has (updatePatientsList s snapshot).messages p.id = true) ∧
    (∀ id p, JsMap.has s.patients id = false →
      snapshot.find? (fun q => decide (q.id = id)) = some p →
      JsMap.get (updatePatientsList s snapshot).patients id = some p) ∧
    (∀ id, JsMap.has s.patients id = false → JsMap.has s.messages id = false →
      (∃ p ∈ snapshot, p.id = id) →
      JsMap.get (updatePatientsList s snapshot).messages id = some []) ∧
    (∀ id log, JsMap.get s.messages id = some log →
      JsMap.get (updatePatientsList s snapshot).messages id = some log) ∧
    JsMap.get (updatePatientsList (State.initial 0) [patientP1]).patients (.str "P1") =
      some patientP1 ∧
    JsMap.get (updatePatientsList (State.initial 0) [patientP1]).messages (.str "P1") =
      some [] := by
  refine ⟨fun p hp => updatePatientsList_known_after snapshot s p hp, ?_,
    fun id p hnew hfind => updatePatientsList_first_entry snapshot s id p hnew hfind,
    fun id hnew hnolog hmem => updatePatientsList_new_log snapshot s id hnew hnolog hmem,
    fun id log hlog => updatePatientsList_keeps_log snapshot s id log hlog,
    by decide, by decide⟩
  intro p hp hnew
  cases hlog : JsMap.get s.messages p.id with
  | some log => simp [JsMap.has, updatePatientsList_keeps_log snapshot s p.id log hlog]
  | none =>
    have hnolog : JsMap.has s.messages p.id = false := by simp [JsMap.has, hlog]
    simp [JsMap.has, updatePatientsList_new_log snapshot s p.id hnew hnolog ⟨p, hp, rfl⟩]

/-- Counterexample to claim C8 as written: "P1" becomes a known patient through a
`connected` lifecycle event, which creates no log; the roster snapshot that names "P1"
then skips it, so "P1" occurs in the snapshot and still has no conversation log. -/
theorem roster_insert_counterexample :
    patientP1 ∈ [patientP1] ∧
    JsMap.has (updatePatientsList
      (run (State.initial 0)
        [.connect, .patientEvent ⟨"connected", .str "P1", some sampleProfile⟩])
      [patientP1]).messages patientP1.id = false := by
  decide

/-! ## Frame lemmas: what each handler does to the patient map -/

theorem acceptedState_patients (s : State) (msg : Message) :
    (acceptedState s msg).patients = s.patients := by
  unfold acceptedState
  split <;> rfl

theorem handleMessage_patients (s : State) (msg : Message) :
    (handleMessage s msg).patients = s.patients := by
  cases h : (logOf s (targetOf s msg)).any (isDuplicateOf msg) with
  | true => rw [handleMessage_of_duplicate s msg h]
  | false => rw [handleMessage_of_fresh s msg h, acceptedState_patients]

theorem sendFileMessage_patients (s : State) (fileName : String) (content : Option String)
    (type : String) : (sendFileMessage s fileName content type).patients = s.patients := by
  unfold sendFileMessage
  split
  · rfl
  · dsimp only
    rw [handleMessage_patients]
    rfl

theorem clearChat_patients (s : State) (confirmed : Bool) :
    (clearChat s confirmed).patients = s.patients := by
  unfold clearChat
  split
  · rfl
  · split <;> rfl

theorem sendMessage_patients (s : State) (inputValue : String) :
    (sendMessage s inputValue).patients = s.patients := by
  unfold sendMessage
  split
  · rfl
  · dsimp only
    split <;> rfl

theorem handleTyping_patients (s : State) : (handleTyping s).patients = s.patients := by
  unfold handleTyping
  split
  · rfl
  · simp only [State.clearTimeout, State.emit, State.setTimeout]
    split <;> rfl

theorem fireTimer_patients (s : State) (id : Nat) : (fireTimer s id).patients = s.patients := by
  unfold fireTimer
  split
  · rfl
  · split <;> rfl

theorem onConnect_patients (s : State) (id : PatientId) :
    (onConnect s id).patients = s.patients := by
  unfold onConnect
  simp only [State.emit, loadPatientChat]
  split <;> rfl

theorem updatePatientStatus_patients_has (s : State) (id : PatientId) (status : String)
    (k : PatientId) :
    JsMap.has (updatePatientStatus s id status).patients k = JsMap.has s.patients k := by
  unfold updatePatientStatus
  split
  · rename_i patient hget
    dsimp only
    rw [JsMap.has_set]
    by_cases hk : k = id
    · subst hk
      simp [JsMap.has, hget]
    · simp [hk]
  · rfl

theorem handleTypingIndicator_patients_has (s : State) (data : TypingData) (k : PatientId) :
    JsMap.has (handleTypingIndicator s data).patients k = JsMap.has s.patients k := by
  unfold handleTypingIndicator
  split
  · exact updatePatientStatus_patients_has _ _ _ _
  · split
    · exact updatePatientStatus_patients_has _ _ _ _
    · rfl

/-! ## Logs of known patients -/

theorem handleMessage_messages_has_mono (s : State) (msg : Message) (id : PatientId)
    (h : JsMap.has s.messages id = true) :
    JsMap.has (handleMessage s msg).messages id = true := by
  cases hd : (logOf s (targetOf s msg)).any (isDuplicateOf msg) with
  | true => rw [handleMessage_of_duplicate s msg hd]; exact h
  | false =>
    rw [handleMessage_of_fresh s msg hd, acceptedState_messages, JsMap.has_set, h]
    simp

theorem step_messages_has_mono (s : State) (a : Action) (id : PatientId)
    (h : JsMap.has s.messages id = true) : JsMap.has (step s a).messages id = true := by
  cases a with
  | connect => exact h
  | socketConnect pid =>
    simp only [step]
    split
    · rw [onConnect_messages]; exact h
    · exact h
  | message msg => exact handleMessage_messages_has_mono s msg id h
  | typing data => simp only [step]; rw [handleTypingIndicator_messages]; exact h
  | presence users => exact h
  | patientsList patients =>
    obtain ⟨log, hlog⟩ := (JsMap.has_eq_true_iff _ _).1 h
    simp [step, JsMap.has, updatePatientsList_keeps_log patients s id log hlog]
  | patientEvent event => simp only [step]; rw [handlePatientEvent_messages]; exact h
  | loadPatientChat pid => exact h
  | clearChat confirmed =>
    simp only [step, clearChat]
    split
    · exact h
    · split
      · simp [State.showToast, JsMap.has_set, h]
      · exact h
  | sendMessage inputValue => simp only [step]; rw [sendMessage_messages]; exact h
  | keystroke => simp only [step]; rw [handleTyping_messages]; exact h
  | sendFile fileName content type =>
    simp only [step, sendFileMessage]
    split
    · exact h
    · exact handleMessage_messages_has_mono _ _ id h
  | timerFires tid => simp only [step]; rw [fireTimer_messages]; exact h
  | elapse ms => exact h

theorem addPatientIfNew_patientsHaveLogs (s : State) (p : Patient)
    (hinv : PatientsHaveLogs s) : PatientsHaveLogs (addPatientIfNew s p) := by
  intro id hid
  by_cases hne : id = p.id
  · subst hne
    cases hknown : JsMap.has s.patients p.id with
    | true =>
      obtain ⟨log, hlog⟩ := (JsMap.has_eq_true_iff _ _).1 (hinv _ hknown)
      simp [JsMap.has, addPatientIfNew_keeps_log s p p.id log hlog]
    | false =>
      cases hlog : JsMap.get s.messages p.id with
      | some log => simp [JsMap.has, addPatientIfNew_keeps_log s p p.id log hlog]
      | none =>
        have hnolog : JsMap.has s.messages p.id = false := by simp [JsMap.has, hlog]
        simp [JsMap.has, addPatientIfNew_new_log s p hknown hnolog]
  · have h := addPatientIfNew_of_ne s p id hne
    unfold JsMap.has at hid ⊢
    rw [h.1] at hid
    rw [h.2]
    exact hinv id hid

theorem updatePatientsList_patientsHaveLogs (snapshot : List Patient) (s : State)
    (hinv : PatientsHaveLogs s) : PatientsHaveLogs (updatePatientsList s snapshot) := by
  induction snapshot generalizing s with
  | nil => exact hinv
  | cons p rest ih =>
    rw [updatePatientsList_cons]
    exact ih _ (addPatientIfNew_patientsHaveLogs s p hinv)

theorem handlePatientEvent_patientsHaveLogs (s : State) (event : PatientEvent)
    (hsafe : insertsPatientWithoutLog s (.patientEvent event) = false)
    (hinv : PatientsHaveLogs s) : PatientsHaveLogs (handlePatientEvent s event).state := by
  intro id hid
  rw [handlePatientEvent_messages]
  unfold handlePatientEvent at hid
  split at hid
  · rename_i htype
    split at hid
    · exact hinv id hid
    · rename_i profile hprofile
      dsimp only at hid
      split at hid
      · rename_i hnew
        have hpat : JsMap.has (JsMap.set s.patients event.patientId
            { id := event.patientId, name := profile.name, age := profile.age,
              condition := profile.condition, online := true, typing := false,
              profile := some profile }) id = true := by
          split at hid <;> exact hid
        rw [JsMap.has_set] at hpat
        by_cases hk : id = event.patientId
        · subst hk
          simp only [State.showToast, State.playNotificationSound, Bool.not_eq_true',
            ] at hnew
          simpa [insertsPatientWithoutLog, htype, hprofile, hnew] using hsafe
        · simp only [hk, decide_False, Bool.false_or] at hpat
          exact hinv id hpat
      · exact hinv id hid
  · split at hid
    · simp only [Outcome.state, updatePatientStatus_patients_has] at hid
      exact hinv id hid
    · exact hinv id hid

theorem step_patientsHaveLogs (s : State) (a : Action)
    (hsafe : insertsPatientWithoutLog s a = false) (hinv : PatientsHaveLogs s) :
    PatientsHaveLogs (step s a) := by
  cases a with
  | patientsList patients => exact updatePatientsList_patientsHaveLogs patients s hinv
  | patientEvent event => exact handlePatientEvent_patientsHaveLogs s event hsafe hinv
  | typing data =>
    intro id hid
    simp only [step, handleTypingIndicator_patients_has] at hid
    exact step_messages_has_mono s _ id (hinv id hid)
  | connect => exact hinv
  | socketConnect pid =>
    intro id hid
    apply step_messages_has_mono s _ id (hinv id _)
    simp only [step] at hid
    split at hid
    · rwa [onConnect_patients] at hid
    · exact hid
  | message msg =>
    intro id hid
    apply step_messages_has_mono s _ id (hinv id _)
    simpa only [step, handleMessage_patients] using hid
  | presence users => exact hinv
  | loadPatientChat pid => exact hinv
  | clearChat confirmed =>
    intro id hid
    apply step_messages_has_mono s _ id (hinv id _)
    simpa only [step, clearChat_patients] using hid
  | sendMessage inputValue =>
    intro id hid
    apply step_messages_has_mono s _ id (hinv id _)
    simpa only [step, sendMessage_patients] using hid
  | keystroke =>
    intro id hid
    apply step_messages_has_mono s _ id (hinv id _)
    simpa only [step, handleTyping_patients] using hid
  | sendFile fileName content type =>
    intro id hid
    apply step_messages_has_mono s _ id (hinv id _)
    simpa only [step, sendFileMessage_patients] using hid
  | timerFires tid =>
    intro id hid
    apply step_messages_has_mono s _ id (hinv id _)
    simpa only [step, fireTimer_patients] using hid
  | elapse ms => exact hinv

theorem insertsPatientWithoutLog_of_not_connected (s : State) (a : Action)
    (h : a.isConnectedEvent = false) : insertsPatientWithoutLog s a = false := by
  cases a <;> simp_all [insertsPatientWithoutLog, Action.isConnectedEvent]

theorem run_patientsHaveLogs (actions : List Action) (s : State)
    (hsafe : ∀ a ∈ actions, a.isConnectedEvent = false) (hinv : PatientsHaveLogs s) :
    PatientsHaveLogs (run s actions) := by
  induction actions generalizing s with
  | nil => exact hinv
  | cons a rest ih =>
    rw [run_cons]
    apply ih
    · exact fun b hb => hsafe b (List.mem_cons_of_mem _ hb)
    · exact step_patientsHaveLogs s a
        (insertsPatientWithoutLog_of_not_connected s a (hsafe a (List.mem_cons_self _ _))) hinv

theorem logOf_of_no_log (s : State) (id : PatientId)
    (h : JsMap.has s.messages id = false) : logOf s id = [] := by
  rw [JsMap.has_eq_false_iff] at h
  simp [logOf, h]

theorem logOf_congr (s1 s2 : State) (id : PatientId) (h : s1.messages = s2.messages) :
    logOf s1 id = logOf s2 id := by
  unfold logOf
  rw [h]

theorem handleMessage_new_log (s : State) (msg : Message) (id : PatientId)
    (h : JsMap.has s.messages id = false) :
    (logOf (handleMessage s msg) id).length ≤ 1 := by
  have hempty := logOf_of_no_log s id h
  cases hd : (logOf s (targetOf s msg)).any (isDuplicateOf msg) with
  | true => rw [handleMessage_of_duplicate s msg hd, hempty]; simp
  | false =>
    rw [handleMessage_of_fresh s msg hd]
    by_cases hk : id = targetOf s msg
    · subst hk
      rw [logOf_acceptedState_target, hempty]
      simp
    · have : logOf (acceptedState s msg) id = logOf s id := by
        unfold logOf
        rw [acceptedState_messages, JsMap.get_set_of_ne _ _ _ _ hk]
      rw [this, hempty]
      simp

theorem addPatientIfNew_messages_none_or_empty (s : State) (p : Patient) (id : PatientId)
    (h : JsMap.get s.messages id = none) :
    JsMap.get (addPatientIfNew s p).messages id = none ∨
      JsMap.get (addPatientIfNew s p).messages id = some [] := by
  by_cases hne : id = p.id
  · subst hne
    unfold addPatientIfNew
    split
    · dsimp only
      split
      · exact Or.inr (JsMap.get_set_self _ _ _)
      · exact Or.inl h
    · exact Or.inl h
  · rw [(addPatientIfNew_of_ne s p id hne).2]
    exact Or.inl h

theorem updatePatientsList_new_log_empty (snapshot : List Patient) (s : State)
    (id : PatientId) (h : JsMap.get s.messages id = none) :
    logOf (updatePatientsList s snapshot) id = [] := by
  induction snapshot generalizing s with
  | nil => simp [updatePatientsList, logOf, h]
  | cons p rest ih =>
    rw [updatePatientsList_cons]
    rcases addPatientIfNew_messages_none_or_empty s p id h with h1 | h1
    · exact ih _ h1
    · simp [logOf, updatePatientsList_keeps_log rest _ id [] h1]

theorem step_new_log_short (s : State) (a : Action) (id : PatientId)
    (h : JsMap.has s.messages id = false) : (logOf (step s a) id).length ≤ 1 := by
  have hempty := logOf_of_no_log s id h
  have hkeep : ∀ s2 : State, s2.messages = s.messages → (logOf s2 id).length ≤ 1 := by
    intro s2 h2
    rw [logOf_congr s2 s id h2, hempty]
    simp
  cases a with
  | connect => exact hkeep _ rfl
  | socketConnect pid =>
    simp only [step]
    split
    · exact hkeep _ (onConnect_messages s pid)
    · exact hkeep _ rfl
  | message msg => exact handleMessage_new_log s msg id h
  | typing data => exact hkeep _ (handleTypingIndicator_messages s data)
  | presence users => exact hkeep _ rfl
  | patientsList patients =>
    simp only [step]
    rw [updatePatientsList_new_log_empty patients s id ((JsMap.has_eq_false_iff _ _).1 h)]
    simp
  | patientEvent event => exact hkeep _ (handlePatientEvent_messages s event)
  | loadPatientChat pid => exact hkeep _ rfl
  | clearChat confirmed =>
    simp only [step, clearChat]
    split
    · exact hkeep _ rfl
    · split
      · by_cases hk : id = s.currentPatientId
        · simp [logOf, State.showToast, hk, JsMap.get_set_self]
        · simp only [logOf, State.showToast, JsMap.get_set_of_ne _ _ _ _ hk]
          exact hkeep s rfl
      · exact hkeep _ rfl
  | sendMessage inputValue => exact hkeep _ (sendMessage_messages s inputValue)
  | keystroke => exact hkeep _ (handleTyping_messages s)
  | sendFile fileName content type =>
    simp only [step, sendFileMessage]
    split
    · exact hkeep _ rfl
    · exact handleMessage_new_log _ _ id h
  | timerFires tid => exact hkeep _ (fireTimer_messages s tid)
  | elapse ms => exact hkeep _ rfl

theorem handleMessage_new_log_content (s : State) (msg : Message) (id : PatientId)
    (h : JsMap.has s.messages id = false) :
    logOf (handleMessage s msg) id = [] ∨
      (id = targetOf s msg ∧ logOf (handleMessage s msg) id = [tagMessage s msg]) := by
  have hempty := logOf_of_no_log s id h
  cases hd : (logOf s (targetOf s msg)).any (isDuplicateOf msg) with
  | true =>
    rw [handleMessage_of_duplicate s msg hd]
    exact Or.inl hempty
  | false =>
    rw [handleMessage_of_fresh s msg hd]
    by_cases hk : id = targetOf s msg
    · right
      refine ⟨hk, ?_⟩
      subst hk
      rw [logOf_acceptedState_target, hempty]
      rfl
    · left
      have : logOf (acceptedState s msg) id = logOf s id := by
        unfold logOf
        rw [acceptedState_messages, JsMap.get_set_of_ne _ _ _ _ hk]
      rw [this, hempty]

/-- What a turn can put into a log that did not exist before it: nothing, or, when the
turn delivers a message (an inbound `message`, or the local echo of a file send) to that
conversation, exactly that message. -/
theorem step_new_log_content (s : State) (a : Action) (id : PatientId)
    (h : JsMap.has s.messages id = false) :
    logOf (step s a) id = [] ∨
      (∃ msg, a = .message msg ∧ id = targetOf s msg ∧
        logOf (step s a) id = [tagMessage s msg]) ∨
      (∃ fileName content type, a = .sendFile fileName content type ∧
        id = s.currentPatientId ∧
        logOf (step s a) id = [fileEcho s fileName content type]) := by
  have hempty := logOf_of_no_log s id h
  have hkeep : ∀ s2 : State, s2.messages = s.messages → logOf s2 id = [] := by
    intro s2 h2
    rw [logOf_congr s2 s id h2, hempty]
  cases a with
  | connect => exact Or.inl (hkeep _ rfl)
  | socketConnect pid =>
    left
    simp only [step]
    split
    · exact hkeep _ (onConnect_messages s pid)
    · exact hkeep _ rfl
  | message msg =>
    rcases handleMessage_new_log_content s msg id h with h1 | h1
    · exact Or.inl h1
    · exact Or.inr (Or.inl ⟨msg, rfl, h1.1, h1.2⟩)
  | typing data => exact Or.inl (hkeep _ (handleTypingIndicator_messages s data))
  | presence users => exact Or.inl (hkeep _ rfl)
  | patientsList patients =>
    left
    exact updatePatientsList_new_log_empty patients s id ((JsMap.has_eq_false_iff _ _).1 h)
  | patientEvent event => exact Or.inl (hkeep _ (handlePatientEvent_messages s event))
  | loadPatientChat pid => exact Or.inl (hkeep _ rfl)
  | clearChat confirmed =>
    left
    simp only [step, clearChat]
    split
    · exact hkeep _ rfl
    · split
      · by_cases hk : id = s.currentPatientId
        · simp [logOf, State.showToast, hk, JsMap.get_set_self]
        · simp only [logOf, State.showToast, JsMap.get_set_of_ne _ _ _ _ hk]
          exact hkeep s rfl
      · exact hkeep _ rfl
  | sendMessage inputValue => exact Or.inl (hkeep _ (sendMessage_messages s inputValue))
  | keystroke => exact Or.inl (hkeep _ (handleTyping_messages s))
  | sendFile fileName content type =>
    by_cases hguard : s.socket = true ∧ s.currentPatientId.truthy = true
    · have hstep : step s (.sendFile fileName content type) =
          handleMessage
            (s.emit (.message (fileMessageText fileName type)
              (some { name := fileName, content := content, type := type })))
            (fileEcho s fileName content type) := by
        simp [step, sendFileMessage, hguard.1, hguard.2, fileEcho, State.emit]
      have htruthy : (fileEcho s fileName content type).patientId.truthy = true := hguard.2
      have htag := tagMessage_of_truthy
        (s.emit (.message (fileMessageText fileName type)
          (some { name := fileName, content := content, type := type })))
        (fileEcho s fileName content type) htruthy
      have htarget : targetOf
          (s.emit (.message (fileMessageText fileName type)
            (some { name := fileName, content := content, type := type })))
          (fileEcho s fileName content type) = s.currentPatientId := by
        unfold targetOf
        rw [htag]
        simp [PatientId.orElse, fileEcho, hguard.2]
      rw [hstep]
      rcases handleMessage_new_log_content
        (s.emit (.message (fileMessageText fileName type)
          (some { name := fileName, content := content, type := type })))
        (fileEcho s fileName content type) id h with h1 | h1
      · exact Or.inl h1
      · right
        right
        refine ⟨fileName, content, type, rfl, ?_, ?_⟩
        · rw [h1.1, htarget]
        · rw [h1.2, htag]
    · left
      have hstep : step s (.sendFile fileName content type) = s := by
        simp only [step, sendFileMessage]
        by_cases hs : s.socket = true
        · have hc : s.currentPatientId.truthy = false := by
            cases hc : s.currentPatientId.truthy with
            | false => rfl
            | true => exact absurd ⟨hs, hc⟩ hguard
          simp [hc]
        · simp [hs]
      rw [hstep]
      exact hempty
  | timerFires tid => exact Or.inl (hkeep _ (fireTimer_messages s tid))
  | elapse ms => exact Or.inl (hkeep _ rfl)

/-- Claim C9, as the code has it.  Logs of known patients: every turn of the event loop
other than a `connected` lifecycle event that carries a profile and names an id with
neither a patient record nor a log keeps the property that every id of the patient map
has an entry in the conversation-log map; so that property holds in every state reached
from the initial state by turns among which there is no `connected` lifecycle event.  For
every turn whatsoever, a log entry that exists is still there afterwards, and a log that
did not exist before the turn is afterwards empty (or still absent) or holds exactly the
one message whose delivery created it: the inbound message of a `message` turn addressed
to that conversation, stored as the handler's first statement left it, or the local echo
of a file send to the current conversation. -/
theorem logs_of_known_patients :
    (∀ (s : State) (a : Action), insertsPatientWithoutLog s a = false →
      (∀ id, JsMap.has s.patients id = true → JsMap.has s.messages id = true) →
      ∀ id, JsMap.has (step s a).patients id = true →
        JsMap.has (step s a).messages id = true) ∧
    (∀ (t0 : Int) (actions : List Action),
      (∀ a ∈ actions, a.isConnectedEvent = false) →
      ∀ id, JsMap.has (run (State.initial t0) actions).patients id = true →
        JsMap.has (run (State.initial t0) actions).messages id = true) ∧
    (∀ (s : State) (a : Action) (id : PatientId),
      JsMap.has s.messages id = true → JsMap.has (step s a).messages id = true) ∧
    (∀ (s : State) (a : Action) (id : PatientId),
      JsMap.has s.messages id = false →
      logOf (step s a) id = [] ∨
        (∃ msg, a = .message msg ∧ id = targetOf s msg ∧
          logOf (step s a) id = [tagMessage s msg]) ∨
        (∃ fileName content type, a = .sendFile fileName content type ∧
          id = s.currentPatientId ∧
          logOf (step s a) id = [fileEcho s fileName content type])) := by
  refine ⟨fun s a hsafe hinv => step_patientsHaveLogs s a hsafe hinv, ?_,
    step_messages_has_mono, step_new_log_content⟩
  intro t0 actions hsafe
  apply run_patientsHaveLogs actions _ hsafe
  intro id hid
  simp [State.initial, JsMap.has, JsMap.get] at hid

/-- Counterexample to claim C9 as written: after a `connected` lifecycle event for the
unknown id "P1", "P1" is in the patient map and has no entry in the conversation-log
map. -/
theorem logs_of_known_patients_counterexample :
    JsMap.has (run (State.initial 0)
      [.connect, .patientEvent ⟨"connected", .str "P1", some sampleProfile⟩]).patients
      (.str "P1") = true ∧
    JsMap.has (run (State.initial 0)
      [.connect, .patientEvent ⟨"connected", .str "P1", some sampleProfile⟩]).messages
      (.str "P1") = false := by
  decide

/-! ## Clearing a chat -/

/-- Claim C13.  Clear chat: with a current conversation `c` and the user's confirmation,
`clearChat` makes the log of `c` the empty sequence and keeps (or creates) the entry of
`c` in the log map, and leaves the log of every other conversation, both counters, the
patient map and the current conversation as they were; with no current conversation
(the pointer is `null`, `undefined` or empty), or without the confirmation, it returns
the state it was given. -/
theorem clear_chat (s : State) (confirmed : Bool) :
    (s.currentPatientId.truthy = true →
      JsMap.get (clearChat s true).messages s.currentPatientId = some [] ∧
      JsMap.has (clearChat s true).messages s.currentPatientId = true ∧
      (∀ k, k ≠ s.currentPatientId →
        JsMap.get (clearChat s true).messages k = JsMap.get s.messages k) ∧
      (clearChat s true).analytics.totalMessages = s.analytics.totalMessages ∧
      (clearChat s true).analytics.messagesToday = s.analytics.messagesToday ∧
      (clearChat s true).patients = s.patients ∧
      (clearChat s true).currentPatientId = s.currentPatientId) ∧
    (s.currentPatientId.truthy = false → clearChat s confirmed = s) ∧
    clearChat s false = s ∧
    logOf (clearChat (run (State.initial 0)
        [.loadPatientChat (.str "P1"), .message (hiAt 0), .message (hiAt 5000)]) true)
      (.str "P1") = [] ∧
    (clearChat (run (State.initial 0)
        [.loadPatientChat (.str "P1"), .message (hiAt 0), .message (hiAt 5000)])
      true).analytics.totalMessages = 2 := by
  refine ⟨fun hc => ?_, fun hc => ?_, ?_, by decide, by decide⟩
  · simp only [clearChat, hc, Bool.not_true, State.showToast]
    refine ⟨JsMap.get_set_self _ _ _, ?_, fun k hk => JsMap.get_set_of_ne _ _ _ _ hk,
      rfl, rfl, rfl, rfl⟩
    simp [JsMap.has, JsMap.get_set_self]
  · simp [clearChat, hc]
  · unfold clearChat
    split <;> rfl

/-! ## Lifecycle events -/

theorem updatePatientStatus_of_known (s : State) (id : PatientId) (status : String)
    (p : Patient) (hp : JsMap.get s.patients id = some p) :
    updatePatientStatus s id status =
      { s with
        patients :=
          JsMap.set s.patients id
            { p with online := status != "offline", typing := status == "typing" } } := by
  simp [updatePatientStatus, hp]

theorem updatePatientStatus_of_unknown (s : State) (id : PatientId) (status : String)
    (hp : JsMap.get s.patients id = none) : updatePatientStatus s id status = s := by
  simp [updatePatientStatus, hp]

/-- Claim C15.  Disconnect: a `disconnected` lifecycle event naming a known patient sets
that patient's `online` flag to false (and its `typing` flag to false) and leaves its
profile, its name and every other field of its record, every other patient record and
every conversation log unchanged; for an unknown id no field of the dashboard changes
(only the "Patient disconnected" toast is requested, as in the known case). -/
theorem disconnect_marks_offline (s : State) (event : PatientEvent)
    (htype : event.type = "disconnected") :
    (∀ p, JsMap.get s.patients event.patientId = some p →
      JsMap.get (handlePatientEvent s event).state.patients event.patientId =
          some { p with online := false, typing := false } ∧
      (∀ k, k ≠ event.patientId →
        JsMap.get (handlePatientEvent s event).state.patients k = JsMap.get s.patients k) ∧
      (handlePatientEvent s event).state.messages = s.messages ∧
      (handlePatientEvent s event).state.analytics = s.analytics ∧
      (handlePatientEvent s event).state.currentPatientId = s.currentPatientId) ∧
    (JsMap.get s.patients event.patientId = none →
      handlePatientEvent s event =
        .returned (s.showToast "warning" "Patient disconnected")) := by
  have hne : (event.type == "connected") = false := by rw [htype]; decide
  have heq : (event.type == "disconnected") = true := by rw [htype]; decide
  constructor
  · intro p hp
    have hp2 : JsMap.get (s.showToast "warning" "Patient disconnected").patients
        event.patientId = some p := hp
    simp only [handlePatientEvent, hne, heq, if_true, Bool.false_eq_true, if_false,
      Outcome.state, updatePatientStatus_of_known _ _ _ p hp2]
    refine ⟨?_, fun k hk => ?_, rfl, rfl, rfl⟩
    · rw [JsMap.get_set_self]
      rfl
    · exact JsMap.get_set_of_ne _ _ _ _ hk
  · intro hp
    have hp2 : JsMap.get (s.showToast "warning" "Patient disconnected").patients
        event.patientId = none := hp
    simp only [handlePatientEvent, hne, heq, if_true, Bool.false_eq_true, if_false,
      updatePatientStatus_of_unknown _ _ _ hp2]

theorem disconnect_marks_offline_witness :
    ((PatientEvent.mk "disconnected" (.str "P1") none).type = "disconnected") ∧
    JsMap.get (handlePatientEvent
        (run (State.initial 0)
          [.connect, .patientEvent ⟨"connected", .str "P1", some sampleProfile⟩])
        ⟨"disconnected", .str "P1", none⟩).state.patients (.str "P1") =
      some { id := .str "P1", name := "A", age := some 40, condition := some "flu",
             online := false, typing := false, profile := some sampleProfile } :=
  ⟨rfl,
   ((disconnect_marks_offline
      (run (State.initial 0)
        [.connect, .patientEvent ⟨"connected", .str "P1", some sampleProfile⟩])
      ⟨"disconnected", .str "P1", none⟩ rfl).1
      { id := .str "P1", name := "A", age := some 40, condition := some "flu",
        online := true, typing := false, profile := some sampleProfile }
      (by decide)).1⟩

/-! ## Inbound typing events -/

/-- Claim C17, as the code has it.  Inbound typing: for a typing event naming a known
patient `p`, `handleTypingIndicator` sets `p.typing` to true (and `p.online` to true)
when the event's role is `patient` and `isTyping` is true; for any other typing event that names `p` by a
non-empty id it sets `p.typing` to false and `p.online` to true; in both cases every
other patient record, every conversation log and the counters are unchanged; an event
naming an unknown id returns the state it was given, and so does an event of the second
kind that carries no id (or an empty one). -/
theorem inbound_typing (s : State) (data : TypingData) :
    (∀ p, JsMap.get s.patients data.patientId = some p →
      data.role = "patient" → data.isTyping = true →
      JsMap.get (handleTypingIndicator s data).patients data.patientId =
          some { p with online := true, typing := true } ∧
      (∀ k, k ≠ data.patientId →
        JsMap.get (handleTypingIndicator s data).patients k = JsMap.get s.patients k) ∧
      (handleTypingIndicator s data).messages = s.messages ∧
      (handleTypingIndicator s data).analytics = s.analytics) ∧
    (∀ p, JsMap.get s.patients data.patientId = some p →
      ¬ (data.role = "patient" ∧ data.isTyping = true) →
      data.patientId.truthy = true →
      JsMap.get (handleTypingIndicator s data).patients data.patientId =
          some { p with online := true, typing := false } ∧
      (∀ k, k ≠ data.patientId →
        JsMap.get (handleTypingIndicator s data).patients k = JsMap.get s.patients k) ∧
      (handleTypingIndicator s data).messages = s.messages ∧
      (handleTypingIndicator s data).analytics = s.analytics) ∧
    (JsMap.get s.patients data.patientId = none → handleTypingIndicator s data = s) ∧
    (¬ (data.role = "patient" ∧ data.isTyping = true) → data.patientId.truthy = false →
      handleTypingIndicator s data = s) ∧
    (JsMap.get (handleTypingIndicator
        (run (State.initial 0) [.patientsList [patientP1]])
        ⟨"patient", true, "A", .str "P1"⟩).patients (.str "P1")).map
        (fun p => (p.online, p.typing)) = some (true, true) ∧
    (JsMap.get (handleTypingIndicator
        (handleTypingIndicator (run (State.initial 0) [.patientsList [patientP1]])
          ⟨"patient", true, "A", .str "P1"⟩)
        ⟨"patient", false, "A", .str "P1"⟩).patients (.str "P1")).map
        (fun p => (p.online, p.typing)) = some (true, false) := by
  have hcond_of : ¬ (data.role = "patient" ∧ data.isTyping = true) →
      (data.role == "patient" && data.isTyping) = false := by
    intro hother
    by_cases hr : data.role = "patient"
    · have : data.isTyping = false := by
        cases hty : data.isTyping with
        | false => rfl
        | true => exact absurd ⟨hr, hty⟩ hother
      simp [this]
    · simp [hr]
  refine ⟨fun p hp hrole htyping => ?_, fun p hp hother hid => ?_, fun hp => ?_,
    fun hother hid => by simp [handleTypingIndicator, hcond_of hother, hid],
    by decide, by decide⟩
  · have hcond : (data.role == "patient" && data.isTyping) = true := by
      simp [hrole, htyping]
    have hstep : handleTypingIndicator s data =
        updatePatientStatus s data.patientId "typing" := by
      simp [handleTypingIndicator, hcond]
    rw [hstep, updatePatientStatus_of_known s _ _ p hp]
    refine ⟨?_, fun k hk => JsMap.get_set_of_ne _ _ _ _ hk, rfl, rfl⟩
    rw [JsMap.get_set_self]
    rfl
  · have hcond := hcond_of hother
    have hstep : handleTypingIndicator s data =
        updatePatientStatus s data.patientId "online" := by
      simp [handleTypingIndicator, hcond, hid]
    rw [hstep, updatePatientStatus_of_known s _ _ p hp]
    refine ⟨?_, fun k hk => JsMap.get_set_of_ne _ _ _ _ hk, rfl, rfl⟩
    rw [JsMap.get_set_self]
    rfl
  · unfold handleTypingIndicator
    split
    · exact updatePatientStatus_of_unknown s _ _ hp
    · split
      · exact updatePatientStatus_of_unknown s _ _ hp
      · rfl

/-! ## Arrival order and the duplicate predicate -/

/-- Claim C18.  The deduplicated log depends on arrival order: of the three messages with
the same text and role and timestamps 0, 750 and 1500, the arrival order 0, 1500, 750
keeps two entries and the arrival order 750, 0, 1500 keeps one, although the two
sequences are permutations of one another; the predicate is not transitive (0 and 750
are duplicates, 750 and 1500 are duplicates, 0 and 1500 are not). -/
theorem dedup_depends_on_arrival_order :
    logOf (run (State.initial 0) ([hiAt 0, hiAt 1500, hiAt 750].map Action.message))
        (.str "P1") = [hiAt 0, hiAt 1500] ∧
    logOf (run (State.initial 0) ([hiAt 750, hiAt 0, hiAt 1500].map Action.message))
        (.str "P1") = [hiAt 750] ∧
    [hiAt 0, hiAt 1500, hiAt 750].Perm [hiAt 750, hiAt 0, hiAt 1500] ∧
    (run (State.initial 0) ([hiAt 0, hiAt 1500, hiAt 750].map Action.message)).messages ≠
      (run (State.initial 0) ([hiAt 750, hiAt 0, hiAt 1500].map Action.message)).messages ∧
    Duplicate (hiAt 0) (hiAt 750) ∧ Duplicate (hiAt 750) (hiAt 1500) ∧
    ¬ Duplicate (hiAt 0) (hiAt 1500) := by
  refine ⟨by decide, by decide, ?_, by decide, by decide, by decide, by decide⟩
  exact (List.Perm.cons _ (List.Perm.swap _ _ _)).trans (List.Perm.swap _ _ _)

/-! ## Messages without a timestamp -/

theorem handleMessage_leaves_duplicate (s : State) (m : Message) :
    ∃ e ∈ logOf (handleMessage s m) (targetOf s m), Duplicate e m := by
  cases h : (logOf s (targetOf s m)).any (isDuplicateOf m) with
  | true =>
    rw [handleMessage_of_duplicate s m h]
    obtain ⟨e, he, hd⟩ := List.any_eq_true.1 h
    exact ⟨e, he, (isDuplicateOf_iff m e).1 hd⟩
  | false =>
    rw [handleMessage_of_fresh s m h, logOf_acceptedState_target]
    refine ⟨tagMessage s m, by simp, ?_⟩
    rw [duplicate_tagMessage_left]
    exact ⟨rfl, rfl, by simp⟩

theorem run_deliverWithGaps_noop (c : PatientId) (m : Message)
    (arrivals : List (Nat × Message)) (s : State)
    (htarget : ∀ x ∈ arrivals, targetOf s x.2 = c)
    (hsame : ∀ x ∈ arrivals, x.2.text = m.text ∧ x.2.role = m.role ∧
      x.2.timestampOrZero = m.timestampOrZero)
    (hdup : ∃ e ∈ logOf s c, Duplicate e m) :
    (run s (deliverWithGaps arrivals)).messages = s.messages ∧
      (run s (deliverWithGaps arrivals)).analytics = s.analytics := by
  induction arrivals generalizing s with
  | nil => exact ⟨rfl, rfl⟩
  | cons x rest ih =>
    obtain ⟨e, he, hd⟩ := hdup
    have hx := hsame x (List.mem_cons_self _ _)
    have hdx : Duplicate e x.2 := by
      refine ⟨hd.1.trans hx.1.symm, hd.2.1.trans hx.2.1.symm, ?_⟩
      rw [hx.2.2]; exact hd.2.2
    have hcur : ({ s with clock := s.clock + x.1 } : State).currentPatientId =
        s.currentPatientId := rfl
    have hmem : e ∈ logOf { s with clock := s.clock + x.1 }
        (targetOf { s with clock := s.clock + x.1 } x.2) := by
      rw [targetOf_congr _ s x.2 hcur, htarget x (List.mem_cons_self _ _)]
      exact he
    have hnoop := duplicate_append_is_noop_aux { s with clock := s.clock + x.1 } x.2 e hmem hdx
    have hrun : run s (deliverWithGaps (x :: rest)) =
        run { s with clock := s.clock + x.1 } (deliverWithGaps rest) := by
      simp only [deliverWithGaps, List.flatMap_cons, List.cons_append, List.nil_append,
        run_cons, step]
      rw [hnoop]
    rw [hrun]
    exact ih { s with clock := s.clock + x.1 }
      (fun y hy => by
        rw [targetOf_congr _ s y.2 hcur]
        exact htarget y (List.mem_cons_of_mem _ hy))
      (fun y hy => hsame y (List.mem_cons_of_mem _ hy))
      ⟨e, he, hd⟩

/-- Claim C19, as the code has it.  A missing timestamp counts as 0 in the duplicate
predicate.  When a message without timestamp (or with timestamp 0) has been delivered to a conversation by
`handleMessage`, any number of further messages with its text and role and no timestamp
(or timestamp 0), delivered to that conversation after waiting times of any length,
leave every log and the counters as the first delivery left them: only the first can be
stored.  And a message without timestamp is discarded when the log of its conversation
holds an entry of its text and role whose timestamp is above -1000 and below 1000.
Examples: of three unstamped "hi" arriving 5 s and 1 h apart one is stored; an unstamped "hi" is discarded after "hi" stamped 999 and stored after
"hi" stamped 1000. -/
theorem missing_timestamp_counts_as_zero :
    (∀ (s : State) (m : Message) (arrivals : List (Nat × Message)),
      m.timestampOrZero = 0 →
      (∀ x ∈ arrivals, x.2.text = m.text ∧ x.2.role = m.role ∧ x.2.timestampOrZero = 0 ∧
        targetOf s x.2 = targetOf s m) →
      (run (handleMessage s m) (deliverWithGaps arrivals)).messages =
          (handleMessage s m).messages ∧
        (run (handleMessage s m) (deliverWithGaps arrivals)).analytics =
          (handleMessage s m).analytics) ∧
    (∀ (s : State) (m e : Message),
      m.timestamp = none → e ∈ logOf s (targetOf s m) → e.text = m.text →
      e.role = m.role → -1000 < e.timestampOrZero → e.timestampOrZero < 1000 →
      handleMessage s m = s) ∧
    logOf (run (State.initial 0)
        (Action.message hiUnstamped ::
          deliverWithGaps [(5000, hiUnstamped), (3600000, hiUnstamped)]))
      (.str "P1") = [hiUnstamped] ∧
    logOf (run (State.initial 0) [.message (hiAt 999), .message hiUnstamped])
      (.str "P1") = [hiAt 999] ∧
    logOf (run (State.initial 0) [.message (hiAt 1000), .message hiUnstamped])
      (.str "P1") = [hiAt 1000, hiUnstamped] := by
  refine ⟨fun s m arrivals hm hall => ?_, fun s m e hm he htext hrole hlo hhi => ?_,
    by decide, by decide, by decide⟩
  · apply run_deliverWithGaps_noop (targetOf s m) m arrivals
    · intro x hx
      rw [targetOf_congr _ s x.2 (handleMessage_currentPatientId s m)]
      exact (hall x hx).2.2.2
    · intro x hx
      exact ⟨(hall x hx).1, (hall x hx).2.1, by rw [(hall x hx).2.2.1, hm]⟩
    · exact handleMessage_leaves_duplicate s m
  · apply duplicate_append_is_noop_aux s m e he
    refine ⟨htext, hrole, ?_⟩
    have : m.timestampOrZero = 0 := by simp [Message.timestampOrZero, hm]
    rw [this, sub_zero, abs_lt]
    exact ⟨hlo, hhi⟩

/-! ## A `connected` lifecycle event -/

/-- Claim C14, as the code has it.  Duplicate connected signal: a `connected` lifecycle
event whose id is already a known patient leaves the patient map (that patient's record
and profile included), every conversation log, the counters and the current conversation
unchanged and emits nothing; for an unknown id, when the event carries a profile and the
dashboard has its socket, the handler returns having stored a record with the event's id,
the profile's name, age and condition, the profile itself, `online = true` and
`typing = false`, and having emitted exactly one `getPatients` request, with every other
patient record, every log and the counters unchanged. -/
theorem connected_event (s : State) (event : PatientEvent)
    (htype : event.type = "connected") :
    (JsMap.has s.patients event.patientId = true →
      (handlePatientEvent s event).state.patients = s.patients ∧
      (handlePatientEvent s event).state.messages = s.messages ∧
      (handlePatientEvent s event).state.analytics = s.analytics ∧
      (handlePatientEvent s event).state.currentPatientId = s.currentPatientId ∧
      (handlePatientEvent s event).state.emitted = s.emitted) ∧
    (∀ profile, event.profile = some profile → s.socket = true →
      JsMap.has s.patients event.patientId = false →
      ∃ s2, handlePatientEvent s event = .returned s2 ∧
        JsMap.get s2.patients event.patientId =
          some { id := event.patientId, name := profile.name, age := profile.age,
                 condition := profile.condition, online := true, typing := false,
                 profile := some profile } ∧
        s2.emitted = s.emitted ++ [Emission.getPatients] ∧
        (∀ k, k ≠ event.patientId → JsMap.get s2.patients k = JsMap.get s.patients k) ∧
        s2.messages = s.messages ∧ s2.analytics = s.analytics ∧
        s2.currentPatientId = s.currentPatientId) := by
  have heq : (event.type == "connected") = true := by rw [htype]; decide
  constructor
  · intro hknown
    unfold handlePatientEvent
    simp only [heq, if_true]
    cases event.profile with
    | none => exact ⟨rfl, rfl, rfl, rfl, rfl⟩
    | some profile =>
      have hk : JsMap.has ((s.showToast "success"
          ("New patient " ++ profile.name ++ " connected")).playNotificationSound).patients
          event.patientId = true := hknown
      simp only [hk, Bool.not_true, Bool.false_eq_true, if_false, Outcome.state]
      exact ⟨rfl, rfl, rfl, rfl, rfl⟩
  · intro profile hprofile hsocket hnew
    have hk : JsMap.has ((s.showToast "success"
        ("New patient " ++ profile.name ++ " connected")).playNotificationSound).patients
        event.patientId = false := hnew
    have hs : ((s.showToast "success"
        ("New patient " ++ profile.name ++ " connected")).playNotificationSound).socket
        = true := hsocket
    unfold handlePatientEvent
    simp only [heq, if_true, hprofile, hk, Bool.not_false, hs]
    refine ⟨_, rfl, ?_, rfl, fun k hk2 => ?_, rfl, rfl, rfl⟩
    · exact JsMap.get_set_self _ _ _
    · exact JsMap.get_set_of_ne _ _ _ _ hk2

theorem connected_event_witness :
    (connectedWithProfile.type = "connected") ∧
    (∃ s2, handlePatientEvent connectedP1 connectedWithProfile = .returned s2 ∧
      JsMap.get s2.patients (.str "P2") =
        some { id := .str "P2", name := "A", age := some 40, condition := some "flu",
               online := true, typing := false, profile := some sampleProfile } ∧
      s2.emitted = connectedP1.emitted ++ [Emission.getPatients]) :=
  ⟨rfl,
   by
    obtain ⟨s2, h1, h2, h3, _⟩ :=
      (connected_event connectedP1 connectedWithProfile rfl).2 sampleProfile rfl
        (by decide) (by decide)
    exact ⟨s2, h1, h2, h3⟩⟩

/-- Counterexample to claim C14 as written: a `connected` event for the unknown id "P2"
that carries no profile stops the handler before anything is stored or emitted; and the
same event with a profile, handled while there is no socket, stores the record and then
stops without emitting `getPatients`. -/
theorem connected_event_counterexample :
    connectedWithoutProfile.type = "connected" ∧
    JsMap.has connectedP1.patients connectedWithoutProfile.patientId = false ∧
    handlePatientEvent connectedP1 connectedWithoutProfile = .threw connectedP1 ∧
    JsMap.has (handlePatientEvent connectedP1 connectedWithoutProfile).state.patients
      (.str "P2") = false ∧
    JsMap.has (State.initial 0).patients connectedWithProfile.patientId = false ∧
    (handlePatientEvent (State.initial 0) connectedWithProfile).state.emitted = [] := by
  decide

/-! ## File attachments -/

theorem acceptedState_emitted (s : State) (msg : Message) :
    (acceptedState s msg).emitted = s.emitted := by
  unfold acceptedState
  split <;> rfl

theorem handleMessage_emitted (s : State) (msg : Message) :
    (handleMessage s msg).emitted = s.emitted := by
  cases h : (logOf s (targetOf s msg)).any (isDuplicateOf msg) with
  | true => rw [handleMessage_of_duplicate s msg h]
  | false => rw [handleMessage_of_fresh s msg h, acceptedState_emitted]

theorem sendFileMessage_eq (s : State) (fileName : String) (content : Option String)
    (type : String) (hsock : s.socket = true) (hcur : s.currentPatientId.truthy = true) :
    sendFileMessage s fileName content type =
      handleMessage
        (s.emit (.message (fileMessageText fileName type)
          (some { name := fileName, content := content, type := type })))
        (fileEcho s fileName content type) := by
  simp [sendFileMessage, hsock, hcur, fileEcho, State.emit]

theorem targetOf_fileEcho (s s0 : State) (fileName : String) (content : Option String)
    (type : String) (hcur : s.currentPatientId.truthy = true) :
    targetOf s0 (fileEcho s fileName content type) = s.currentPatientId ∧
      tagMessage s0 (fileEcho s fileName content type) = fileEcho s fileName content type := by
  have ht : (fileEcho s fileName content type).patientId.truthy = true := hcur
  have htag := tagMessage_of_truthy s0 _ ht
  refine ⟨?_, htag⟩
  unfold targetOf
  rw [htag]
  simp [PatientId.orElse, fileEcho, hcur]

/-- Claim C16, as the code has it.  File-attachment echo absorption: with a socket and a
current conversation `c`, `sendFileMessage` emits exactly one `message` to the transport;
when no entry of the log of `c` is a duplicate of the local echo (role `doctor`, the
attachment text, the time of the send), the echo is appended to that log, and a server
echo then delivered to `c` with the identical text, role `doctor` and a timestamp less
than 1000 ms from the local echo's is discarded, so the log holds one entry for the
attachment; when the local echo is itself a duplicate there, no log changes. -/
theorem file_echo_absorbed (s : State) (fileName : String) (content : Option String)
    (type : String) (hsock : s.socket = true) (hcur : s.currentPatientId.truthy = true) :
    (sendFileMessage s fileName content type).emitted =
        s.emitted ++ [Emission.message (fileMessageText fileName type)
          (some { name := fileName, content := content, type := type })] ∧
    ((∀ e ∈ logOf s s.currentPatientId, ¬ Duplicate e (fileEcho s fileName content type)) →
      logOf (sendFileMessage s fileName content type) s.currentPatientId =
          logOf s s.currentPatientId ++ [fileEcho s fileName content type] ∧
      (fileEcho s fileName content type).role = "doctor" ∧
      ∀ server : Message, server.text = fileMessageText fileName type →
        server.role = "doctor" → |server.timestampOrZero - s.clock| < 1000 →
        targetOf (sendFileMessage s fileName content type) server = s.currentPatientId →
        handleMessage (sendFileMessage s fileName content type) server =
          sendFileMessage s fileName content type) ∧
    ((∃ e ∈ logOf s s.currentPatientId, Duplicate e (fileEcho s fileName content type)) →
      (sendFileMessage s fileName content type).messages = s.messages) := by
  have heq := sendFileMessage_eq s fileName content type hsock hcur
  have ht := targetOf_fileEcho s
    (s.emit (.message (fileMessageText fileName type)
      (some { name := fileName, content := content, type := type })))
    fileName content type hcur
  refine ⟨?_, fun hfresh => ?_, fun hdup => ?_⟩
  · rw [heq, handleMessage_emitted]
    rfl
  · have hfresh2 : ∀ e ∈ logOf (s.emit (.message (fileMessageText fileName type)
          (some { name := fileName, content := content, type := type })))
        (targetOf (s.emit (.message (fileMessageText fileName type)
          (some { name := fileName, content := content, type := type })))
          (fileEcho s fileName content type)),
        ¬ Duplicate e (fileEcho s fileName content type) := by
      rw [ht.1]
      exact hfresh
    have hacc := handleMessage_of_fresh _ _ (any_isDuplicateOf_eq_false _ _ hfresh2)
    have hlog : logOf (sendFileMessage s fileName content type) s.currentPatientId =
        logOf s s.currentPatientId ++ [fileEcho s fileName content type] := by
      rw [heq, hacc]
      have := logOf_acceptedState_target (s.emit (.message (fileMessageText fileName type)
        (some { name := fileName, content := content, type := type })))
        (fileEcho s fileName content type)
      rw [ht.1, ht.2] at this
      exact this
    refine ⟨hlog, rfl, fun server htext hrole hts htarget => ?_⟩
    apply duplicate_append_is_noop_aux _ server (fileEcho s fileName content type)
    · rw [htarget, hlog]
      simp
    · refine ⟨htext.symm, hrole.symm, ?_⟩
      rw [abs_sub_comm]
      exact hts
  · obtain ⟨e, he, hd⟩ := hdup
    rw [heq]
    have hmem : e ∈ logOf (s.emit (.message (fileMessageText fileName type)
          (some { name := fileName, content := content, type := type })))
        (targetOf (s.emit (.message (fileMessageText fileName type)
          (some { name := fileName, content := content, type := type })))
          (fileEcho s fileName content type)) := by
      rw [ht.1]
      exact he
    rw [duplicate_append_is_noop_aux _ _ e hmem hd]
    rfl

theorem file_echo_absorbed_witness :
    connectedP1.socket = true ∧ connectedP1.currentPatientId.truthy = true ∧
    (∀ e ∈ logOf connectedP1 connectedP1.currentPatientId,
      ¬ Duplicate e (fileEcho connectedP1 "a.txt" none "file")) ∧
    logOf (handleMessage (sendFileMessage connectedP1 "a.txt" none "file")
        (serverEcho "a.txt" "file" 999)) (.str "P1") =
      [fileEcho connectedP1 "a.txt" none "file"] :=
  ⟨by decide, by decide, by decide,
   by
    have h := (file_echo_absorbed connectedP1 "a.txt" none "file" (by decide)
      (by decide)).2.1 (by decide)
    rw [h.2.2 (serverEcho "a.txt" "file" 999) rfl rfl (by decide) (by decide)]
    exact h.1⟩

/-- Counterexample to claim C16 as written: the same file is sent at time 0 and again at
time 900; the second local echo is a duplicate of the first and is not appended, and the
server echo of the second send, stamped 1800 (900 ms from the second local echo), is not
a duplicate of the entry stamped 0, so it is appended, not discarded. -/
theorem file_echo_absorbed_counterexample :
    (run connectedP1 [.sendFile "a.txt" none "file", .elapse 900]).socket = true ∧
    (run connectedP1 [.sendFile "a.txt" none "file", .elapse 900]).currentPatientId =
      .str "P1" ∧
    (serverEcho "a.txt" "file" 1800).text = fileMessageText "a.txt" "file" ∧
    (serverEcho "a.txt" "file" 1800).role = "doctor" ∧
    |(serverEcho "a.txt" "file" 1800).timestampOrZero -
      (run connectedP1 [.sendFile "a.txt" none "file", .elapse 900]).clock| < 1000 ∧
    handleMessage
        (sendFileMessage (run connectedP1 [.sendFile "a.txt" none "file", .elapse 900])
          "a.txt" none "file")
        (serverEcho "a.txt" "file" 1800) ≠
      sendFileMessage (run connectedP1 [.sendFile "a.txt" none "file", .elapse 900])
        "a.txt" none "file" ∧
    (logOf (handleMessage
        (sendFileMessage (run connectedP1 [.sendFile "a.txt" none "file", .elapse 900])
          "a.txt" none "file")
        (serverEcho "a.txt" "file" 1800)) (.str "P1")).map (fun m => m.timestamp) =
      [some 0, some 1800] := by
  decide

/-! ## The timer queue -/

theorem TimersOk.congr {s1 s2 : State} (h : timerView s2 = timerView s1)
    (hok : TimersOk s1) : TimersOk s2 := by
  simp only [timerView, Prod.mk.injEq] at h
  obtain ⟨h1, h2, h3, h4⟩ := h
  unfold TimersOk at hok ⊢
  rw [h1, h2, h3, h4]
  exact hok

theorem acceptedState_timerView (s : State) (msg : Message) :
    timerView (acceptedState s msg) = timerView s := by
  unfold acceptedState
  split <;> rfl

theorem handleMessage_timerView (s : State) (msg : Message) :
    timerView (handleMessage s msg) = timerView s := by
  cases h : (logOf s (targetOf s msg)).any (isDuplicateOf msg) with
  | true => rw [handleMessage_of_duplicate s msg h]
  | false => rw [handleMessage_of_fresh s msg h, acceptedState_timerView]

theorem updatePatientStatus_timerView (s : State) (id : PatientId) (status : String) :
    timerView (updatePatientStatus s id status) = timerView s := by
  unfold updatePatientStatus
  split <;> rfl

theorem handleTypingIndicator_timerView (s : State) (data : TypingData) :
    timerView (handleTypingIndicator s data) = timerView s := by
  unfold handleTypingIndicator
  split
  · exact updatePatientStatus_timerView _ _ _
  · split
    · exact updatePatientStatus_timerView _ _ _
    · rfl

theorem addPatientIfNew_timerView (s : State) (p : Patient) :
    timerView (addPatientIfNew s p) = timerView s := by
  unfold addPatientIfNew
  split
  · dsimp only
    split <;> rfl
  · rfl

theorem updatePatientsList_timerView (snapshot : List Patient) (s : State) :
    timerView (updatePatientsList s snapshot) = timerView s := by
  induction snapshot generalizing s with
  | nil => rfl
  | cons p rest ih => rw [updatePatientsList_cons, ih, addPatientIfNew_timerView]

theorem handlePatientEvent_timerView (s : State) (event : PatientEvent) :
    timerView (handlePatientEvent s event).state = timerView s := by
  unfold handlePatientEvent
  split
  · split
    · rfl
    · dsimp only
      split
      · split <;> rfl
      · rfl
  · split
    · simp only [Outcome.state, updatePatientStatus_timerView]
      rfl
    · rfl

theorem clearChat_timerView (s : State) (confirmed : Bool) :
    timerView (clearChat s confirmed) = timerView s := by
  unfold clearChat
  split
  · rfl
  · split <;> rfl

theorem sendFileMessage_timerView (s : State) (fileName : String)
    (content : Option String) (type : String) :
    timerView (sendFileMessage s fileName content type) = timerView s := by
  unfold sendFileMessage
  split
  · rfl
  · dsimp only
    rw [handleMessage_timerView]
    rfl

theorem onConnect_timerView (s : State) (id : PatientId) :
    timerView (onConnect s id) = timerView s := by
  unfold onConnect
  simp only [State.emit, loadPatientChat]
  split <;> rfl

theorem timer_filter_nodup (timers : List Timer) (h : Nat)
    (hnd : (timers.map Timer.id).Nodup) :
    ((timers.filter (fun t => decide (t.id ≠ h))).map Timer.id).Nodup :=
  hnd.sublist (List.Sublist.map _ (List.filter_sublist _))

theorem timer_append_nodup (timers : List Timer) (n : Nat) (due : Int)
    (action : TimerAction) (hnd : (timers.map Timer.id).Nodup)
    (hlt : ∀ tm ∈ timers, tm.id < n) :
    ((timers ++ [Timer.mk n due action]).map Timer.id).Nodup := by
  rw [List.map_append, List.nodup_append]
  refine ⟨hnd, by simp, ?_⟩
  intro a ha hb
  simp only [List.map_cons, List.map_nil, List.mem_singleton] at hb
  obtain ⟨tm, htm, rfl⟩ := List.mem_map.1 ha
  have := hlt tm htm
  omega

theorem sendMessage_accepted (s : State) (inputValue : String)
    (hguard : s.isSending = false) (htext : jsTrim inputValue ≠ "")
    (hsock : s.socket = true) (hcur : s.currentPatientId.truthy = true) :
    sendMessage s inputValue =
      { s with
        isSending := true,
        emitted := s.emitted ++ [.typing false, .message (jsTrim inputValue) none],
        timers := s.timers ++ [Timer.mk s.nextTimerId (s.clock + 500) .releaseSendGuard],
        nextTimerId := s.nextTimerId + 1 } := by
  simp [sendMessage, hguard, htext, hsock, hcur, State.emit, State.setTimeout]

theorem sendMessage_rejected (s : State) (inputValue : String)
    (h : s.isSending = true ∨ jsTrim inputValue = "" ∨ s.socket = false ∨
      s.currentPatientId.truthy = false) : sendMessage s inputValue = s := by
  unfold sendMessage
  by_cases hs : s.isSending = true
  · simp [hs]
  · rcases h with h | h | h | h
    · exact absurd h hs
    · simp [h]
    · simp [h]
    · simp [h]

theorem sendMessage_timersOk (s : State) (inputValue : String) (hok : TimersOk s) :
    TimersOk (sendMessage s inputValue) := by
  by_cases hrej : s.isSending = true ∨ jsTrim inputValue = "" ∨ s.socket = false ∨
      s.currentPatientId.truthy = false
  · rw [sendMessage_rejected s inputValue hrej]; exact hok
  · simp only [not_or, Bool.not_eq_true, Bool.not_eq_false] at hrej
    obtain ⟨hg, ht, hs, hc⟩ := hrej
    rw [sendMessage_accepted s inputValue hg ht hs hc]
    obtain ⟨h1, h2, h3, h4, h5⟩ := hok
    have hnone : ∀ tm ∈ s.timers, tm.action ≠ .releaseSendGuard := by
      intro tm htm hrel
      have := h3 tm htm hrel
      rw [hg] at this
      exact Bool.noConfusion this
    refine ⟨timer_append_nodup _ _ _ _ h1 h2, ?_, fun _ _ _ => rfl, ?_, ?_⟩
    · intro tm htm
      simp only [List.mem_append, List.mem_singleton] at htm
      rcases htm with htm | htm
      · have := h2 tm htm
        show tm.id < s.nextTimerId + 1
        omega
      · subst htm
        show s.nextTimerId < s.nextTimerId + 1
        omega
    · intro tm htm u hu htmr hur
      simp only [List.mem_append, List.mem_singleton] at htm hu
      rcases htm with htm | htm
      · exact absurd htmr (hnone tm htm)
      · rcases hu with hu | hu
        · exact absurd hur (hnone u hu)
        · rw [htm, hu]
    · intro tm htm hty
      simp only [List.mem_append, List.mem_singleton] at htm
      rcases htm with htm | htm
      · exact h5 tm htm hty
      · subst htm
        exact TimerAction.noConfusion hty

theorem clearedTimers_sublist (timers : List Timer) (handle : Option Nat) :
    (clearedTimers timers handle).Sublist timers := by
  unfold clearedTimers
  split
  · exact List.Sublist.refl _
  · exact List.filter_sublist _

theorem clearedTimers_not_handle (timers : List Timer) (h : Nat) (tm : Timer)
    (htm : tm ∈ clearedTimers timers (some h)) : tm.id ≠ h := by
  simp only [clearedTimers, List.mem_filter, decide_eq_true_eq] at htm
  exact htm.2

theorem handleTyping_accepted (s : State) (hsock : s.socket = true)
    (hcur : s.currentPatientId.truthy = true) :
    handleTyping s =
      { s with
        emitted := s.emitted ++ [.typing true],
        timers := clearedTimers s.timers s.typingTimeout ++
          [Timer.mk s.nextTimerId (s.clock + 1000) .typingStop],
        nextTimerId := s.nextTimerId + 1,
        typingTimeout := some s.nextTimerId } := by
  cases h : s.typingTimeout <;>
    simp [handleTyping, hsock, hcur, State.emit, State.clearTimeout, State.setTimeout,
      clearedTimers, h]

theorem handleTyping_rejected (s : State)
    (h : s.socket = false ∨ s.currentPatientId.truthy = false) : handleTyping s = s := by
  unfold handleTyping
  rcases h with h | h <;> simp [h]

theorem handleTyping_timersOk (s : State) (hok : TimersOk s) : TimersOk (handleTyping s) := by
  by_cases hrej : s.socket = false ∨ s.currentPatientId.truthy = false
  · rw [handleTyping_rejected s hrej]; exact hok
  · simp only [not_or, Bool.not_eq_false] at hrej
    rw [handleTyping_accepted s hrej.1 hrej.2]
    obtain ⟨h1, h2, h3, h4, h5⟩ := hok
    have hsub := clearedTimers_sublist s.timers s.typingTimeout
    have hmem : ∀ tm ∈ clearedTimers s.timers s.typingTimeout, tm ∈ s.timers :=
      fun tm htm => hsub.subset htm
    refine ⟨timer_append_nodup _ _ _ _ (h1.sublist (List.Sublist.map _ hsub))
      (fun tm htm => h2 tm (hmem tm htm)), ?_, ?_, ?_, ?_⟩
    · intro tm htm
      simp only [List.mem_append, List.mem_singleton] at htm
      rcases htm with htm | htm
      · have := h2 tm (hmem tm htm)
        show tm.id < s.nextTimerId + 1
        omega
      · subst htm
        show s.nextTimerId < s.nextTimerId + 1
        omega
    · intro tm htm hrel
      simp only [List.mem_append, List.mem_singleton] at htm
      rcases htm with htm | htm
      · exact h3 tm (hmem tm htm) hrel
      · subst htm
        exact TimerAction.noConfusion hrel
    · intro tm htm u hu htmr hur
      simp only [List.mem_append, List.mem_singleton] at htm hu
      rcases htm with htm | htm
      · rcases hu with hu | hu
        · exact h4 tm (hmem tm htm) u (hmem u hu) htmr hur
        · subst hu
          exact TimerAction.noConfusion hur
      · subst htm
        exact TimerAction.noConfusion htmr
    · intro tm htm hty
      simp only [List.mem_append, List.mem_singleton] at htm
      rcases htm with htm | htm
      · have hold := h5 tm (hmem tm htm) hty
        rw [hold] at htm
        exact absurd rfl (clearedTimers_not_handle s.timers tm.id tm htm)
      · subst htm
        rfl

theorem find_timer_of_nodup (timers : List Timer) (tm : Timer)
    (hnd : (timers.map Timer.id).Nodup) (hmem : tm ∈ timers) :
    timers.find? (fun t => decide (t.id = tm.id)) = some tm := by
  induction timers with
  | nil => simp at hmem
  | cons a rest ih =>
    rw [List.map_cons, List.nodup_cons] at hnd
    rw [List.mem_cons] at hmem
    rcases hmem with hmem | hmem
    · subst hmem
      simp [List.find?_cons]
    · have hne : a.id ≠ tm.id := by
        intro h
        exact hnd.1 (h ▸ List.mem_map_of_mem _ hmem)
      simp only [List.find?_cons, hne, decide_False]
      exact ih hnd.2 hmem

theorem fireTimer_of_mem (s : State) (tm : Timer) (hnd : (s.timers.map Timer.id).Nodup)
    (hmem : tm ∈ s.timers) :
    fireTimer s tm.id =
      match tm.action with
      | .releaseSendGuard =>
        { s with timers := s.timers.filter (fun u => decide (u.id ≠ tm.id)),
                 isSending := false }
      | .typingStop =>
        { s with timers := s.timers.filter (fun u => decide (u.id ≠ tm.id)),
                 emitted := s.emitted ++ [.typing false] } := by
  unfold fireTimer
  rw [find_timer_of_nodup s.timers tm hnd hmem]
  obtain ⟨i, due, action⟩ := tm
  cases action <;> rfl

theorem mem_filter_other (timers : List Timer) (tm u : Timer)
    (hnd : (timers.map Timer.id).Nodup) (hu : u ∈ timers) (htm : tm ∈ timers)
    (hne : u ≠ tm) : u ∈ timers.filter (fun v => decide (v.id ≠ tm.id)) := by
  rw [List.mem_filter]
  refine ⟨hu, ?_⟩
  simp only [ne_eq, decide_not, Bool.not_eq_true', decide_eq_false_iff_not]
  intro hid
  exact hne (List.inj_on_of_nodup_map hnd hu htm hid)

theorem fireTimer_timersOk (s : State) (id : Nat) (hok : TimersOk s) :
    TimersOk (fireTimer s id) := by
  unfold fireTimer
  cases hfind : s.timers.find? (fun t => decide (t.id = id)) with
  | none => exact hok
  | some tm =>
    obtain ⟨h1, h2, h3, h4, h5⟩ := hok
    have htm : tm ∈ s.timers := List.mem_of_find?_eq_some hfind
    have hid : tm.id = id := by
      have := List.find?_some hfind
      simpa using this
    have hsub : ∀ u ∈ s.timers.filter (fun u => decide (u.id ≠ id)), u ∈ s.timers :=
      fun u hu => (List.mem_filter.1 hu).1
    have hother : ∀ u ∈ s.timers.filter (fun u => decide (u.id ≠ id)), u.id ≠ id := by
      intro u hu
      simpa using (List.mem_filter.1 hu).2
    dsimp only
    cases hact : tm.action with
    | releaseSendGuard =>
      refine ⟨timer_filter_nodup _ _ h1, fun u hu => h2 u (hsub u hu), ?_, ?_, ?_⟩
      · intro u hu hrel
        have := h4 u (hsub u hu) tm htm hrel hact
        exact absurd (this ▸ hid) (hother u hu)
      · exact fun u hu v hv hur hvr => h4 u (hsub u hu) v (hsub v hv) hur hvr
      · exact fun u hu hty => h5 u (hsub u hu) hty
    | typingStop =>
      refine ⟨timer_filter_nodup _ _ h1, fun u hu => h2 u (hsub u hu), ?_, ?_, ?_⟩
      · exact fun u hu hrel => h3 u (hsub u hu) hrel
      · exact fun u hu v hv hur hvr => h4 u (hsub u hu) v (hsub v hv) hur hvr
      · exact fun u hu hty => h5 u (hsub u hu) hty

theorem step_timersOk (s : State) (a : Action) (hok : TimersOk s) : TimersOk (step s a) := by
  cases a with
  | connect => exact hok.congr rfl
  | socketConnect pid =>
    simp only [step]
    split
    · exact hok.congr (onConnect_timerView s pid)
    · exact hok
  | message msg => exact hok.congr (handleMessage_timerView s msg)
  | typing data => exact hok.congr (handleTypingIndicator_timerView s data)
  | presence users => exact hok.congr rfl
  | patientsList patients => exact hok.congr (updatePatientsList_timerView patients s)
  | patientEvent event => exact hok.congr (handlePatientEvent_timerView s event)
  | loadPatientChat pid => exact hok.congr rfl
  | clearChat confirmed => exact hok.congr (clearChat_timerView s confirmed)
  | sendMessage inputValue => exact sendMessage_timersOk s inputValue hok
  | keystroke => exact handleTyping_timersOk s hok
  | sendFile fileName content type =>
    exact hok.congr (sendFileMessage_timerView s fileName content type)
  | timerFires tid => exact fireTimer_timersOk s tid hok
  | elapse ms => exact hok.congr rfl

theorem initial_timersOk (t0 : Int) : TimersOk (State.initial t0) := by
  refine ⟨by simp [State.initial], ?_, ?_, ?_, ?_⟩ <;> simp [State.initial]

theorem run_timersOk (actions : List Action) (s : State) (hok : TimersOk s) :
    TimersOk (run s actions) := by
  induction actions generalizing s with
  | nil => exact hok
  | cons a rest ih => exact ih _ (step_timersOk s a hok)

/-! ## Time passing -/

theorem nextDue_some (timers : List Timer) (t : Int) (tm : Timer)
    (h : nextDue timers t = some tm) : tm ∈ timers ∧ tm.due ≤ t := by
  induction timers generalizing tm with
  | nil => simp [nextDue] at h
  | cons a rest ih =>
    unfold nextDue at h
    cases hrest : nextDue rest t with
    | none =>
      simp only [hrest] at h
      split at h
      · rename_i hdue
        cases h
        exact ⟨List.mem_cons_self _ _, hdue⟩
      · cases h
    | some b =>
      simp only [hrest] at h
      split at h
      · rename_i hdue
        cases h
        exact ⟨List.mem_cons_self _ _, hdue.1⟩
      · have hb : b = tm := by simpa using h
        rw [← hb]
        exact ⟨List.mem_cons_of_mem _ (ih b hrest).1, (ih b hrest).2⟩

theorem nextDue_none (timers : List Timer) (t : Int) (h : nextDue timers t = none) :
    ∀ tm ∈ timers, t < tm.due := by
  induction timers with
  | nil => simp
  | cons a rest ih =>
    unfold nextDue at h
    cases hrest : nextDue rest t with
    | none =>
      simp only [hrest] at h
      split at h
      · cases h
      · rename_i hdue
        intro tm htm
        rw [List.mem_cons] at htm
        rcases htm with htm | htm
        · subst htm; omega
        · exact ih hrest tm htm
    | some b =>
      simp only [hrest] at h
      split at h <;> cases h

theorem messagesEmitted_append_typing (s : State) (b : Bool) :
    messagesEmitted { s with emitted := s.emitted ++ [.typing b] } = messagesEmitted s := by
  simp [messagesEmitted, List.filterMap_append]

theorem fireTimer_timerFrame (s : State) (id : Nat) :
    timerFrame (fireTimer s id) = timerFrame s := by
  unfold fireTimer
  split
  · rfl
  · dsimp only
    split
    · rfl
    · simp only [timerFrame, State.emit, messagesEmitted_append_typing]
      simp [messagesEmitted]

theorem advanceFuel_timerFrame (n : Nat) (s : State) (t : Int) :
    timerFrame (advanceFuel n s t) = timerFrame s := by
  induction n generalizing s with
  | zero => rfl
  | succ n ih =>
    unfold advanceFuel
    split
    · rfl
    · rw [ih, fireTimer_timerFrame]
      rfl

theorem advanceFuel_clock (n : Nat) (s : State) (t : Int) : (advanceFuel n s t).clock = t := by
  induction n generalizing s with
  | zero => rfl
  | succ n ih =>
    unfold advanceFuel
    split
    · rfl
    · exact ih _

theorem advanceFuel_timersOk (n : Nat) (s : State) (t : Int) (hok : TimersOk s) :
    TimersOk (advanceFuel n s t) := by
  induction n generalizing s with
  | zero => exact hok.congr rfl
  | succ n ih =>
    unfold advanceFuel
    split
    · exact hok.congr rfl
    · exact ih _ (fireTimer_timersOk _ _ (hok.congr rfl))

theorem fireTimer_isSending_false (s : State) (id : Nat) (h : s.isSending = false) :
    (fireTimer s id).isSending = false := by
  unfold fireTimer
  split
  · exact h
  · dsimp only
    split
    · rfl
    · exact h

theorem advanceFuel_isSending_false (n : Nat) (s : State) (t : Int)
    (h : s.isSending = false) : (advanceFuel n s t).isSending = false := by
  induction n generalizing s with
  | zero => exact h
  | succ n ih =>
    unfold advanceFuel
    split
    · exact h
    · exact ih _ (fireTimer_isSending_false _ _ h)

theorem timer_filter_length_lt (timers : List Timer) (tm : Timer) (htm : tm ∈ timers) :
    (timers.filter (fun u => decide (u.id ≠ tm.id))).length < timers.length := by
  induction timers with
  | nil => simp at htm
  | cons a rest ih =>
    rw [List.mem_cons] at htm
    by_cases ha : a.id = tm.id
    · have hle := List.length_filter_le (fun u : Timer => decide (u.id ≠ tm.id)) rest
      simp only [List.filter_cons, ha, ne_eq, not_true_eq_false, decide_False,
        Bool.false_eq_true, if_false, List.length_cons]
      simp only [ne_eq, decide_not] at hle
      simp only [decide_not]
      omega
    · rcases htm with htm | htm
      · exact absurd (htm ▸ rfl) ha
      · have := ih htm
        simp only [List.filter_cons, ha, ne_eq, not_false_eq_true, decide_True, if_true,
          List.length_cons]
        simp only [ne_eq] at this
        omega

theorem advanceFuel_succ_none (n : Nat) (s : State) (t : Int)
    (h : nextDue s.timers t = none) : advanceFuel (n + 1) s t = { s with clock := t } := by
  simp [advanceFuel, h]

theorem advanceFuel_succ_some (n : Nat) (s : State) (t : Int) (tm : Timer)
    (h : nextDue s.timers t = some tm) :
    advanceFuel (n + 1) s t =
      advanceFuel n (fireTimer { s with clock := max s.clock tm.due } tm.id) t := by
  simp [advanceFuel, h]

theorem fireTimer_release (s : State) (tm : Timer) (hnd : (s.timers.map Timer.id).Nodup)
    (hmem : tm ∈ s.timers) (hact : tm.action = .releaseSendGuard) :
    fireTimer s tm.id =
      { s with timers := s.timers.filter (fun u => decide (u.id ≠ tm.id)),
               isSending := false } := by
  rw [fireTimer_of_mem s tm hnd hmem, hact]

theorem fireTimer_typingStop (s : State) (tm : Timer) (hnd : (s.timers.map Timer.id).Nodup)
    (hmem : tm ∈ s.timers) (hact : tm.action = .typingStop) :
    fireTimer s tm.id =
      { s with timers := s.timers.filter (fun u => decide (u.id ≠ tm.id)),
               emitted := s.emitted ++ [.typing false] } := by
  rw [fireTimer_of_mem s tm hnd hmem, hact]

theorem timerAction_cases (a : TimerAction) :
    a = .releaseSendGuard ∨ a = .typingStop := by
  cases a
  · exact Or.inl rfl
  · exact Or.inr rfl

/-- While no guard-release timer falls due, the guard stays as it is and the pending
guard-release timers stay pending. -/
theorem advanceFuel_guard_pending (n : Nat) (s : State) (t : Int) (hok : TimersOk s)
    (hq : ∀ tm ∈ s.timers, tm.action = .releaseSendGuard → t < tm.due) :
    (advanceFuel n s t).isSending = s.isSending ∧
      ∀ tm ∈ s.timers, tm.action = .releaseSendGuard → tm ∈ (advanceFuel n s t).timers := by
  induction n generalizing s with
  | zero => exact ⟨rfl, fun tm htm _ => htm⟩
  | succ n ih =>
    cases hnext : nextDue s.timers t with
    | none =>
      rw [advanceFuel_succ_none n s t hnext]
      exact ⟨rfl, fun tm htm _ => htm⟩
    | some tm =>
      obtain ⟨htm, hdue⟩ := nextDue_some s.timers t tm hnext
      have hact : tm.action = .typingStop := by
        rcases timerAction_cases tm.action with h | h
        · have := hq tm htm h
          omega
        · exact h
      have hok1 : TimersOk { s with clock := max s.clock tm.due } := hok.congr rfl
      have hfire := fireTimer_typingStop { s with clock := max s.clock tm.due } tm
        hok.1 htm hact
      have hok2 := fireTimer_timersOk { s with clock := max s.clock tm.due } tm.id hok1
      rw [advanceFuel_succ_some n s t tm hnext]
      rw [hfire] at hok2 ⊢
      have hsub : ∀ u ∈ s.timers.filter (fun u => decide (u.id ≠ tm.id)), u ∈ s.timers :=
        fun u hu => (List.mem_filter.1 hu).1
      obtain ⟨ih1, ih2⟩ := ih _ hok2 (fun u hu hrel => hq u (hsub u hu) hrel)
      refine ⟨ih1, fun u hu hrel => ih2 u ?_ hrel⟩
      apply mem_filter_other s.timers tm u hok.1 hu htm
      intro h
      rw [h, hact] at hrel
      exact TimerAction.noConfusion hrel

/-- Once the pending guard-release timer has fallen due, the guard is clear. -/
theorem advanceFuel_guard_released (n : Nat) (s : State) (t : Int) (r : Timer)
    (hok : TimersOk s) (hr : r ∈ s.timers) (hract : r.action = .releaseSendGuard)
    (hdue : r.due ≤ t) (hfuel : s.timers.length ≤ n) :
    (advanceFuel n s t).isSending = false := by
  induction n generalizing s with
  | zero =>
    have : s.timers.length = 0 := by omega
    rw [List.length_eq_zero] at this
    rw [this] at hr
    simp at hr
  | succ n ih =>
    cases hnext : nextDue s.timers t with
    | none =>
      have := nextDue_none s.timers t hnext r hr
      omega
    | some tm =>
      obtain ⟨htm, _⟩ := nextDue_some s.timers t tm hnext
      have hok1 : TimersOk { s with clock := max s.clock tm.due } := hok.congr rfl
      have hok2 := fireTimer_timersOk { s with clock := max s.clock tm.due } tm.id hok1
      rw [advanceFuel_succ_some n s t tm hnext]
      rcases timerAction_cases tm.action with hact | hact
      · apply advanceFuel_isSending_false
        rw [fireTimer_release { s with clock := max s.clock tm.due } tm hok.1 htm hact]
      · have hfire := fireTimer_typingStop { s with clock := max s.clock tm.due } tm
          hok.1 htm hact
        rw [hfire] at hok2 ⊢
        apply ih _ hok2
        · apply mem_filter_other s.timers tm r hok.1 hr htm
          intro h
          rw [h, hact] at hract
          exact TimerAction.noConfusion hract
        · have := timer_filter_length_lt s.timers tm htm
          show (s.timers.filter (fun u => decide (u.id ≠ tm.id))).length ≤ n
          omega

/-- While no typing timer falls due, nothing is emitted. -/
theorem advanceFuel_typing_quiet (n : Nat) (s : State) (t : Int) (hok : TimersOk s)
    (hq : ∀ tm ∈ s.timers, tm.action = .typingStop → t < tm.due) :
    (advanceFuel n s t).emitted = s.emitted := by
  induction n generalizing s with
  | zero => rfl
  | succ n ih =>
    cases hnext : nextDue s.timers t with
    | none => rw [advanceFuel_succ_none n s t hnext]
    | some tm =>
      obtain ⟨htm, hdue⟩ := nextDue_some s.timers t tm hnext
      have hact : tm.action = .releaseSendGuard := by
        rcases timerAction_cases tm.action with h | h
        · exact h
        · have := hq tm htm h
          omega
      have hok1 : TimersOk { s with clock := max s.clock tm.due } := hok.congr rfl
      have hfire := fireTimer_release { s with clock := max s.clock tm.due } tm
        hok.1 htm hact
      have hok2 := fireTimer_timersOk { s with clock := max s.clock tm.due } tm.id hok1
      rw [advanceFuel_succ_some n s t tm hnext]
      rw [hfire] at hok2 ⊢
      have hsub : ∀ u ∈ s.timers.filter (fun u => decide (u.id ≠ tm.id)), u ∈ s.timers :=
        fun u hu => (List.mem_filter.1 hu).1
      rw [ih _ hok2 (fun u hu hty => hq u (hsub u hu) hty)]

/-- Once the pending typing timer has fallen due, exactly one `typing false` has been
emitted. -/
theorem advanceFuel_typing_fires (n : Nat) (s : State) (t : Int) (r : Timer)
    (hok : TimersOk s) (hr : r ∈ s.timers) (hract : r.action = .typingStop)
    (hdue : r.due ≤ t) (hfuel : s.timers.length ≤ n) :
    (advanceFuel n s t).emitted = s.emitted ++ [.typing false] := by
  induction n generalizing s with
  | zero =>
    have : s.timers.length = 0 := by omega
    rw [List.length_eq_zero] at this
    rw [this] at hr
    simp at hr
  | succ n ih =>
    cases hnext : nextDue s.timers t with
    | none =>
      have := nextDue_none s.timers t hnext r hr
      omega
    | some tm =>
      obtain ⟨htm, _⟩ := nextDue_some s.timers t tm hnext
      have hok1 : TimersOk { s with clock := max s.clock tm.due } := hok.congr rfl
      have hok2 := fireTimer_timersOk { s with clock := max s.clock tm.due } tm.id hok1
      have hsub : ∀ u ∈ s.timers.filter (fun u => decide (u.id ≠ tm.id)), u ∈ s.timers :=
        fun u hu => (List.mem_filter.1 hu).1
      rw [advanceFuel_succ_some n s t tm hnext]
      rcases timerAction_cases tm.action with hact | hact
      · have hfire := fireTimer_release { s with clock := max s.clock tm.due } tm
          hok.1 htm hact
        rw [hfire] at hok2 ⊢
        apply ih _ hok2
        · apply mem_filter_other s.timers tm r hok.1 hr htm
          intro h
          rw [h, hact] at hract
          exact TimerAction.noConfusion hract
        · have := timer_filter_length_lt s.timers tm htm
          show (s.timers.filter (fun u => decide (u.id ≠ tm.id))).length ≤ n
          omega
      · have hfire := fireTimer_typingStop { s with clock := max s.clock tm.due } tm
          hok.1 htm hact
        rw [hfire] at hok2 ⊢
        rw [advanceFuel_typing_quiet n _ t hok2]
        intro u hu hty
        exfalso
        have hu1 := hsub u hu
        have h1 := hok.2.2.2.2 u hu1 hty
        have h2 := hok.2.2.2.2 tm htm hact
        rw [h1] at h2
        have hid : u.id = tm.id := by simpa using h2
        have : u.id ≠ tm.id := by simpa using (List.mem_filter.1 hu).2
        exact this hid

theorem timerFrame_fields {a b : State} (h : timerFrame a = timerFrame b) :
    a.socket = b.socket ∧ a.currentPatientId = b.currentPatientId ∧
      a.patients = b.patients ∧ a.messages = b.messages ∧ a.analytics = b.analytics ∧
      a.nextTimerId = b.nextTimerId ∧ a.typingTimeout = b.typingTimeout ∧
      messagesEmitted a = messagesEmitted b := by
  simp only [timerFrame, Prod.mk.injEq] at h
  obtain ⟨h1, h2, h3, h4, h5, _, h7, h8, h9⟩ := h
  exact ⟨h1, h2, h3, h4, h5, h7, h8, h9⟩

theorem fireTimer_timers (s : State) (id : Nat) :
    (fireTimer s id).timers = s.timers.filter (fun u => decide (u.id ≠ id)) := by
  unfold fireTimer
  cases hfind : s.timers.find? (fun t => decide (t.id = id)) with
  | none =>
    symm
    rw [List.filter_eq_self]
    intro u hu
    have := List.find?_eq_none.1 hfind u hu
    simpa using this
  | some tm =>
    dsimp only
    split <;> rfl

/-- The fuel of `advance` suffices: when it returns, no pending timer is due. -/
theorem advanceFuel_fires_all_due (n : Nat) (s : State) (t : Int)
    (hfuel : s.timers.length ≤ n) : ∀ tm ∈ (advanceFuel n s t).timers, t < tm.due := by
  induction n generalizing s with
  | zero =>
    have : s.timers.length = 0 := by omega
    rw [List.length_eq_zero] at this
    intro tm htm
    have htm2 : tm ∈ s.timers := htm
    rw [this] at htm2
    simp at htm2
  | succ n ih =>
    cases hnext : nextDue s.timers t with
    | none =>
      rw [advanceFuel_succ_none n s t hnext]
      exact nextDue_none s.timers t hnext
    | some tm =>
      obtain ⟨htm, _⟩ := nextDue_some s.timers t tm hnext
      rw [advanceFuel_succ_some n s t tm hnext]
      apply ih
      rw [fireTimer_timers]
      have := timer_filter_length_lt s.timers tm htm
      show (s.timers.filter (fun u => decide (u.id ≠ tm.id))).length ≤ n
      omega

/-! ## Trimming -/

theorem head_dropWhile_not_white (l : List Char) (c : Char)
    (h : (l.dropWhile isJsWhiteSpace).head? = some c) : isJsWhiteSpace c = false := by
  have := List.head?_dropWhile_not isJsWhiteSpace l
  rw [h] at this
  exact this

/-- The method `trim` as modelled does what `String.prototype.trim` is specified to do. -/
theorem jsTrim_isTrimOf (input : String) : IsTrimOf (jsTrim input) input := by
  have hsplit1 := List.takeWhile_append_dropWhile isJsWhiteSpace input.toList
  have hsplit2 := List.takeWhile_append_dropWhile isJsWhiteSpace
    (input.toList.dropWhile isJsWhiteSpace).reverse
  have hmid : input.toList.dropWhile isJsWhiteSpace =
      ((input.toList.dropWhile isJsWhiteSpace).reverse.dropWhile isJsWhiteSpace).reverse ++
        ((input.toList.dropWhile isJsWhiteSpace).reverse.takeWhile isJsWhiteSpace).reverse := by
    rw [← List.reverse_append, hsplit2, List.reverse_reverse]
  have htrim : (jsTrim input).toList =
      ((input.toList.dropWhile isJsWhiteSpace).reverse.dropWhile isJsWhiteSpace).reverse :=
    rfl
  refine ⟨input.toList.takeWhile isJsWhiteSpace,
    ((input.toList.dropWhile isJsWhiteSpace).reverse.takeWhile isJsWhiteSpace).reverse,
    ?_, ?_, ?_, ?_, ?_⟩
  · rw [htrim, List.append_assoc, ← hmid, hsplit1]
  · exact fun c hc => List.mem_takeWhile_imp hc
  · exact fun c hc => List.mem_takeWhile_imp (List.mem_reverse.1 hc)
  · intro c hc
    apply head_dropWhile_not_white input.toList c
    rw [hmid, List.head?_append, ← htrim, hc]
    rfl
  · intro c hc
    rw [htrim, List.getLast?_reverse] at hc
    exact head_dropWhile_not_white _ c hc

/-! ## The send guard over time -/

/-- Claim C11.  Send guard window.  Time is explicit: `advance s ms` lets `ms`
milliseconds pass and fires every timer that falls due, so the guard-release timer fires
exactly 500 ms after an accepted send.  In any state reached from the initial state with
the guard clear, a connection and a current conversation, and with first and third
inputs that are not empty after trimming (the second may be anything): the first
`sendMessage` emits `typing false` and one `message` carrying the trimmed text, that is
the input without the white space at its two ends, and appends nothing to any log; a
second call less than 500 ms later is rejected, so the two calls produce exactly one
`message` emission; and a third call made once 500 ms have passed since the first
produces the second `message` emission, again carrying its input trimmed.  No
conversation log changes in the whole scenario. -/
theorem send_guard_window (t0 : Int) (actions : List Action) (s : State)
    (hreach : s = run (State.initial t0) actions)
    (hguard : s.isSending = false) (hsock : s.socket = true)
    (hcur : s.currentPatientId.truthy = true)
    (in1 in2 in3 : String) (h1 : jsTrim in1 ≠ "") (h3 : jsTrim in3 ≠ "")
    (d1 d2 : Nat) (hd1 : d1 < 500) (hd2 : 500 ≤ d1 + d2) :
    (sendMessage s in1).emitted =
        s.emitted ++ [Emission.typing false, Emission.message (jsTrim in1) none] ∧
      IsTrimOf (jsTrim in1) in1 ∧ IsTrimOf (jsTrim in3) in3 ∧
      (sendMessage s in1).messages = s.messages ∧
      sendMessage (advance (sendMessage s in1) d1) in2 = advance (sendMessage s in1) d1 ∧
      messagesEmitted (sendMessage (advance (sendMessage s in1) d1) in2) =
        messagesEmitted s ++ [jsTrim in1] ∧
      messagesEmitted
          (sendMessage (advance (sendMessage (advance (sendMessage s in1) d1) in2) d2) in3) =
        messagesEmitted s ++ [jsTrim in1, jsTrim in3] ∧
      (sendMessage (advance (sendMessage (advance (sendMessage s in1) d1) in2) d2) in3).messages
        = s.messages := by
  have hok : TimersOk s := by
    rw [hreach]
    exact run_timersOk actions _ (initial_timersOk t0)
  have hacc1 := sendMessage_accepted s in1 hguard h1 hsock hcur
  have hok1 : TimersOk (sendMessage s in1) := sendMessage_timersOk s in1 hok
  have hr : Timer.mk s.nextTimerId (s.clock + 500) .releaseSendGuard ∈
      (sendMessage s in1).timers := by
    rw [hacc1]
    simp
  have hclock1 : (sendMessage s in1).clock = s.clock := by rw [hacc1]
  have hem1 : messagesEmitted (sendMessage s in1) = messagesEmitted s ++ [jsTrim in1] := by
    rw [hacc1]
    simp [messagesEmitted, List.filterMap_append]
  have hsend1 : (sendMessage s in1).isSending = true := by rw [hacc1]
  have hmsgs1 : (sendMessage s in1).messages = s.messages := by rw [hacc1]
  have hsock1 : (sendMessage s in1).socket = true := by rw [hacc1]; exact hsock
  have hcur1 : (sendMessage s in1).currentPatientId.truthy = true := by
    rw [hacc1]; exact hcur
  -- the first wait: the release timer is not yet due
  have hq1 : ∀ tm ∈ (sendMessage s in1).timers, tm.action = .releaseSendGuard →
      (sendMessage s in1).clock + (d1 : Int) < tm.due := by
    intro tm htm hrel
    have := hok1.2.2.2.1 tm htm _ hr hrel rfl
    rw [this, hclock1]
    show s.clock + (d1 : Int) < s.clock + 500
    omega
  obtain ⟨hsendA1, hkeepA1⟩ := advanceFuel_guard_pending (sendMessage s in1).timers.length
    (sendMessage s in1) ((sendMessage s in1).clock + d1) hok1 hq1
  have hokA1 : TimersOk (advance (sendMessage s in1) d1) :=
    advanceFuel_timersOk _ _ _ hok1
  have hframeA1 := timerFrame_fields
    (advanceFuel_timerFrame (sendMessage s in1).timers.length (sendMessage s in1)
      ((sendMessage s in1).clock + d1))
  have hclockA1 : (advance (sendMessage s in1) d1).clock = s.clock + d1 := by
    unfold advance
    rw [advanceFuel_clock, hclock1]
  have hrej : sendMessage (advance (sendMessage s in1) d1) in2 =
      advance (sendMessage s in1) d1 := by
    apply sendMessage_rejected
    left
    unfold advance
    rw [hsendA1, hsend1]
  -- the second wait: the release timer falls due
  have hrA1 : Timer.mk s.nextTimerId (s.clock + 500) .releaseSendGuard ∈
      (advance (sendMessage s in1) d1).timers := hkeepA1 _ hr rfl
  have hsendA2 : (advance (advance (sendMessage s in1) d1) d2).isSending = false := by
    apply advanceFuel_guard_released _ _ _ _ hokA1 hrA1 rfl _ (Nat.le_refl _)
    rw [hclockA1]
    show s.clock + 500 ≤ s.clock + (d1 : Int) + (d2 : Int)
    omega
  have hframeA2 := timerFrame_fields
    (advanceFuel_timerFrame (advance (sendMessage s in1) d1).timers.length
      (advance (sendMessage s in1) d1) ((advance (sendMessage s in1) d1).clock + d2))
  have hsockA2 : (advance (advance (sendMessage s in1) d1) d2).socket = true := by
    unfold advance at hframeA2 ⊢
    rw [hframeA2.1]
    exact hframeA1.1.trans hsock1
  have hcurA2 : (advance (advance (sendMessage s in1) d1) d2).currentPatientId.truthy
      = true := by
    unfold advance at hframeA2 ⊢
    rw [hframeA2.2.1]
    exact (congrArg PatientId.truthy hframeA1.2.1).trans hcur1
  have hacc3 := sendMessage_accepted (advance (advance (sendMessage s in1) d1) d2) in3
    hsendA2 h3 hsockA2 hcurA2
  have hemA2 : messagesEmitted (advance (advance (sendMessage s in1) d1) d2) =
      messagesEmitted s ++ [jsTrim in1] := by
    unfold advance at hframeA2 ⊢
    rw [hframeA2.2.2.2.2.2.2.2]
    exact hframeA1.2.2.2.2.2.2.2.trans hem1
  have hmsgsA2 : (advance (advance (sendMessage s in1) d1) d2).messages = s.messages := by
    unfold advance at hframeA2 ⊢
    rw [hframeA2.2.2.2.1]
    exact hframeA1.2.2.2.1.trans hmsgs1
  refine ⟨by rw [hacc1], jsTrim_isTrimOf in1, jsTrim_isTrimOf in3, hmsgs1, hrej, ?_, ?_, ?_⟩
  · rw [hrej]
    exact hframeA1.2.2.2.2.2.2.2.trans hem1
  · rw [hrej, hacc3]
    have : messagesEmitted
        { advance (advance (sendMessage s in1) d1) d2 with
          isSending := true,
          emitted := (advance (advance (sendMessage s in1) d1) d2).emitted ++
            [.typing false, .message (jsTrim in3) none],
          timers := (advance (advance (sendMessage s in1) d1) d2).timers ++
            [Timer.mk (advance (advance (sendMessage s in1) d1) d2).nextTimerId
              ((advance (advance (sendMessage s in1) d1) d2).clock + 500) .releaseSendGuard],
          nextTimerId := (advance (advance (sendMessage s in1) d1) d2).nextTimerId + 1 } =
        messagesEmitted (advance (advance (sendMessage s in1) d1) d2) ++ [jsTrim in3] := by
      simp [messagesEmitted, List.filterMap_append]
    rw [this, hemA2]
    simp
  · rw [hrej, hacc3]
    exact hmsgsA2

theorem send_guard_window_witness :
    connectedP1 = run (State.initial 0) [.connect, .socketConnect (.str "P1")] ∧
    connectedP1.isSending = false ∧ connectedP1.socket = true ∧
    connectedP1.currentPatientId.truthy = true ∧
    jsTrim " \t first message \n" = "first message" ∧ jsTrim "third " = "third" ∧
    (sendMessage connectedP1 " \t first message \n").emitted =
      connectedP1.emitted ++
        [Emission.typing false, Emission.message "first message" none] ∧
    messagesEmitted
        (sendMessage (advance (sendMessage connectedP1 " \t first message \n") 499)
          "second") =
      ["first message"] ∧
    messagesEmitted
        (sendMessage
          (advance
            (sendMessage (advance (sendMessage connectedP1 " \t first message \n") 499)
              "second") 1)
          "third ") =
      ["first message", "third"] :=
  have h := send_guard_window 0 [.connect, .socketConnect (.str "P1")] connectedP1 rfl
    (by decide) (by decide) (by decide) " \t first message \n" "second" "third "
    (by decide) (by decide) 499 1 (by decide) (by decide)
  have ht1 : jsTrim " \t first message \n" = "first message" := by decide
  have ht3 : jsTrim "third " = "third" := by decide
  have he : messagesEmitted connectedP1 = [] := by decide
  ⟨rfl, by decide, by decide, by decide, ht1, ht3,
   by rw [h.1, ht1],
   by rw [h.2.2.2.2.2.1, he, ht1]; rfl,
   by rw [h.2.2.2.2.2.2.1, he, ht1, ht3]; rfl⟩

/-! ## The typing debounce over time -/

/-- One keystroke and the wait after it: `typing true` is emitted at once; nothing more
is emitted while less than 1000 ms pass, and exactly one `typing false` once 1000 ms have
passed. -/
theorem keystroke_then_wait (s : State) (hok : TimersOk s) (hsock : s.socket = true)
    (hcur : s.currentPatientId.truthy = true) :
    (handleTyping s).emitted = s.emitted ++ [Emission.typing true] ∧
      (∀ d : Nat, d < 1000 →
        (advance (handleTyping s) d).emitted = (handleTyping s).emitted ∧
        TimersOk (advance (handleTyping s) d) ∧
        (advance (handleTyping s) d).socket = true ∧
        (advance (handleTyping s) d).currentPatientId.truthy = true) ∧
      (∀ d : Nat, 1000 ≤ d →
        (advance (handleTyping s) d).emitted =
          (handleTyping s).emitted ++ [Emission.typing false]) := by
  have hacc := handleTyping_accepted s hsock hcur
  have hokK : TimersOk (handleTyping s) := handleTyping_timersOk s hok
  have hr : Timer.mk s.nextTimerId (s.clock + 1000) .typingStop ∈ (handleTyping s).timers := by
    rw [hacc]
    simp
  have hclock : (handleTyping s).clock = s.clock := by rw [hacc]
  have hhandle : (handleTyping s).typingTimeout = some s.nextTimerId := by rw [hacc]
  have honly : ∀ tm ∈ (handleTyping s).timers, tm.action = .typingStop →
      tm = Timer.mk s.nextTimerId (s.clock + 1000) .typingStop := by
    intro tm htm hty
    have h5 := hokK.2.2.2.2 tm htm hty
    rw [hhandle] at h5
    have hid : tm.id = (Timer.mk s.nextTimerId (s.clock + 1000) .typingStop).id := by
      simpa using h5.symm
    exact List.inj_on_of_nodup_map hokK.1 htm hr hid
  refine ⟨by rw [hacc], fun d hd => ?_, fun d hd => ?_⟩
  · have hframe := timerFrame_fields
      (advanceFuel_timerFrame (handleTyping s).timers.length (handleTyping s)
        ((handleTyping s).clock + d))
    refine ⟨?_, advanceFuel_timersOk _ _ _ hokK, ?_, ?_⟩
    · apply advanceFuel_typing_quiet _ _ _ hokK
      intro tm htm hty
      rw [honly tm htm hty, hclock]
      show s.clock + (d : Int) < s.clock + 1000
      omega
    · unfold advance
      rw [hframe.1, hacc]
      exact hsock
    · unfold advance
      rw [hframe.2.1, hacc]
      exact hcur
  · apply advanceFuel_typing_fires _ _ _ _ hokK hr rfl _ (Nat.le_refl _)
    rw [hclock]
    show s.clock + 1000 ≤ s.clock + (d : Int)
    omega

/-- Claim C12, as the code has it.  Typing debounce.  Time is explicit (`advance`).  In
any state reached from the initial state with a connection and a current conversation,
three `handleTyping` keystrokes, each less than 1000 ms after the one before (300 ms in
particular), emit `typing true` three times, once per keystroke, and nothing else;
after the last keystroke nothing is emitted while less than 1000 ms pass, and exactly
one `typing false` has been emitted once 1000 ms have passed. -/
theorem typing_debounce (t0 : Int) (actions : List Action) (s : State)
    (hreach : s = run (State.initial t0) actions)
    (hsock : s.socket = true) (hcur : s.currentPatientId.truthy = true)
    (g1 g2 : Nat) (hg1 : g1 < 1000) (hg2 : g2 < 1000) :
    (handleTyping (advance (handleTyping (advance (handleTyping s) g1)) g2)).emitted =
        s.emitted ++ [Emission.typing true, Emission.typing true, Emission.typing true] ∧
      (∀ d : Nat, d < 1000 →
        (advance (handleTyping (advance (handleTyping (advance (handleTyping s) g1)) g2))
            d).emitted =
          s.emitted ++ [Emission.typing true, Emission.typing true, Emission.typing true]) ∧
      (∀ d : Nat, 1000 ≤ d →
        (advance (handleTyping (advance (handleTyping (advance (handleTyping s) g1)) g2))
            d).emitted =
          s.emitted ++ [Emission.typing true, Emission.typing true, Emission.typing true,
            Emission.typing false]) := by
  have hok : TimersOk s := by
    rw [hreach]
    exact run_timersOk actions _ (initial_timersOk t0)
  obtain ⟨he1, hw1, _⟩ := keystroke_then_wait s hok hsock hcur
  obtain ⟨hq1, hok1, hsock1, hcur1⟩ := hw1 g1 hg1
  obtain ⟨he2, hw2, _⟩ := keystroke_then_wait _ hok1 hsock1 hcur1
  obtain ⟨hq2, hok2, hsock2, hcur2⟩ := hw2 g2 hg2
  obtain ⟨he3, hw3, hf3⟩ := keystroke_then_wait _ hok2 hsock2 hcur2
  have hem : (handleTyping (advance (handleTyping (advance (handleTyping s) g1)) g2)).emitted
      = s.emitted ++ [Emission.typing true, Emission.typing true, Emission.typing true] := by
    rw [he3, hq2, he2, hq1, he1]
    simp
  refine ⟨hem, fun d hd => ?_, fun d hd => ?_⟩
  · rw [(hw3 d hd).1, hem]
  · rw [hf3 d hd, hem]
    simp

theorem typing_debounce_witness :
    connectedP1 = run (State.initial 0) [.connect, .socketConnect (.str "P1")] ∧
    connectedP1.socket = true ∧ connectedP1.currentPatientId.truthy = true ∧
    (advance (handleTyping (advance (handleTyping (advance (handleTyping connectedP1)
        300)) 300)) 999).emitted =
      connectedP1.emitted ++
        [Emission.typing true, Emission.typing true, Emission.typing true] ∧
    (advance (handleTyping (advance (handleTyping (advance (handleTyping connectedP1)
        300)) 300)) 1000).emitted =
      connectedP1.emitted ++
        [Emission.typing true, Emission.typing true, Emission.typing true,
          Emission.typing false] :=
  have h := typing_debounce 0 [.connect, .socketConnect (.str "P1")] connectedP1 rfl
    (by decide) (by decide) 300 300 (by decide) (by decide)
  ⟨rfl, by decide, by decide, h.2.1 999 (by decide), h.2.2 1000 (by decide)⟩

/-- Counterexample to claim C12 as written: three keystrokes 300 ms apart and then
1000 ms of silence produce three `typing true` emissions, not one (and one
`typing false`). -/
theorem typing_debounce_counterexample :
    connectedP1.socket = true ∧ connectedP1.currentPatientId = .str "P1" ∧
    typingEmitted connectedP1 = [] ∧
    typingEmitted
        (advance (handleTyping (advance (handleTyping (advance (handleTyping connectedP1)
          300)) 300)) 1000) = [true, true, true, false] ∧
    (typingEmitted
        (advance (handleTyping (advance (handleTyping (advance (handleTyping connectedP1)
          300)) 300)) 1000)).count true ≠ 1 := by
  decide

/-! ## Counterexamples to the inbound-typing and missing-timestamp claims as written -/

/-- Counterexample to claim C17 as written: the patient stored under the empty id is known
and marked as typing; the typing event that names it with `isTyping` false (an "other"
typing event) is stopped by the guard `if (data.patientId)`, so the record keeps
`typing = true` instead of getting `typing = false`. -/
theorem inbound_typing_counterexample :
    JsMap.get typingEmptyId.patients (.str "") =
      some { patientEmptyId with online := true, typing := true } ∧
    handleTypingIndicator typingEmptyId
        { role := "patient", isTyping := false, displayName := "A", patientId := .str "" } =
      typingEmptyId ∧
    (JsMap.get (handleTypingIndicator typingEmptyId
        { role := "patient", isTyping := false, displayName := "A",
          patientId := .str "" }).patients (.str "")).map (fun p => p.typing) =
      some true := by
  decide

/-- Counterexample to claim C19 as written: the log holds "hi" of the patient stamped
-1000, a timestamp below 1000; the same message without timestamp is 1000 ms away from
it, so it is stored, not discarded. -/
theorem missing_timestamp_counterexample :
    (hiAt (-1000)).timestampOrZero < 1000 ∧
    hiUnstamped.timestamp = none ∧
    (hiAt (-1000)).text = hiUnstamped.text ∧ (hiAt (-1000)).role = hiUnstamped.role ∧
    hiAt (-1000) ∈ logOf (run (State.initial 0) [.message (hiAt (-1000))])
      (targetOf (run (State.initial 0) [.message (hiAt (-1000))]) hiUnstamped) ∧
    handleMessage (run (State.initial 0) [.message (hiAt (-1000))]) hiUnstamped ≠
      run (State.initial 0) [.message (hiAt (-1000))] ∧
    logOf (run (State.initial 0) [.message (hiAt (-1000)), .message hiUnstamped])
      (.str "P1") = [hiAt (-1000), hiUnstamped] := by
  decide

end DoctorDashboard
